import Mathlib

/-!
Verification of the ntm Session Coordinator against its specification.

Go strings are modelled as `List Char` (the sources under scrutiny operate on
ASCII text, where Go's byte indexing and rune indexing agree). Functions that
can panic in Go (out-of-range slicing) are modelled with `Option`, `none`
standing for the panic. Go `float64` score arithmetic is modelled with `ℚ`
(the scores involved are small decimal constants, where float and rational
arithmetic agree on the properties stated here). Maps are modelled as
association lists, and `time.Now()` as an explicit `now` parameter.
-/

/-- Characters of a string literal, used to write Go string values. -/
def chars (s : String) : List Char := s.toList

/-! ## String primitives (Go `strings` package) -/

/-- Go `strings.Index`: index of the first occurrence of `sub` in `s`,
`none` when `sub` does not occur (Go returns `-1`). -/
def strIndex (s sub : List Char) : Option Nat :=
  if sub.isPrefixOf s then some 0
  else
    match s with
    | [] => none
    | _ :: t => (strIndex t sub).map (· + 1)

/-- Go `strings.Contains`. -/
def containsStr (s sub : List Char) : Bool :=
  (strIndex s sub).isSome

/-- Go `strings.HasSuffix`. -/
def goEndsWith (s suf : List Char) : Bool :=
  decide (suf.length ≤ s.length) && decide (s.drop (s.length - suf.length) = suf)

/-- Whitespace recognized by Go `unicode.IsSpace`, restricted to ASCII. -/
def isSpaceGo (c : Char) : Bool :=
  c = ' ' || c = '\t' || c = '\n' || c = '\x0b' || c = '\x0c' || c = '\r'

/-- Go `strings.TrimSpace` (ASCII whitespace). -/
def trimSpace (s : List Char) : List Char :=
  ((s.dropWhile isSpaceGo).reverse.dropWhile isSpaceGo).reverse

/-- Go `strings.Split(s, "\n")`: split on newlines; never returns an empty list. -/
def splitNl : List Char → List (List Char)
  | [] => [[]]
  | c :: t =>
    match splitNl t with
    | [] => [[c]]
    | h :: hs => if c = '\n' then [] :: h :: hs else (c :: h) :: hs

/-! ## Output Extractor (internal/pipeline/pipeline.go, `extractNewOutput`) -/

/-- Scan loop of `extractNewOutput`: repeatedly find `searchChunk` in the
remaining search region; at each occurrence check whether the corresponding
suffix of `before` is a prefix of `after`, returning the rest of `after`
on success and skipping past the occurrence otherwise. `offset` is the
number of characters of the search region already consumed, as in the Go
loop. The empty-chunk guard is unreachable at the call site (the chunk is cut
from `after`, which is non-empty there); it only serves termination. -/
def scanLoop (before after searchChunk : List Char) (scanStart : Nat)
    (remaining : List Char) (offset : Nat) : Option (List Char) :=
  if hch : searchChunk = [] then none
  else
    match h : strIndex remaining searchChunk with
    | none => none
    | some idx =>
      let absIdx := scanStart + offset + idx
      let suffixLen := before.length - absIdx
      if after.length ≥ suffixLen ∧ after.take suffixLen = before.drop absIdx then
        some (after.drop suffixLen)
      else
        scanLoop before after searchChunk scanStart
          (remaining.drop (idx + 1)) (offset + idx + 1)
termination_by remaining.length
decreasing_by
  cases hr : remaining with
  | nil =>
    exfalso
    cases hc : searchChunk with
    | nil => exact hch hc
    | cons a as => rw [hr, hc] at h; simp [strIndex, List.isPrefixOf] at h
  | cons a as => simp [hr, List.length_drop]; omega

/-- Fallback loop of `extractNewOutput` for overlaps shorter than the chunk
size: test overlap lengths `k, k-1, ..., 1` in order; Go's
`before[len(before)-k:]` panics when `k > len(before)`, modelled by `none`.
The base case `0` is the `return after` that follows the loop in Go. -/
def fallbackLoop (before after : List Char) : Nat → Option (List Char)
  | 0 => some after
  | k + 1 =>
    if before.length < k + 1 then none
    else if before.drop (before.length - (k + 1)) = after.take (k + 1) then
      some (after.drop (k + 1))
    else fallbackLoop before after k

/-- Go `extractNewOutput(before, after)` from internal/pipeline/pipeline.go:
isolates the text added to the pane after the `before` snapshot. `none`
models a Go runtime panic (negative slice index in the fallback loop). -/
def extractNewOutput (before after : List Char) : Option (List Char) :=
  if before = [] then some after
  else if after = [] then some []
  else if before.length ≤ after.length ∧ after.take before.length = before then
    -- fast path: 'after' starts with 'before', simple append
    some (after.drop before.length)
  else
    -- chunkSize = 40
    let searchChunk := if 40 ≤ after.length then after.take 40 else after
    -- scanStart = len(before) - len(after), clamped at 0 (Nat subtraction)
    let scanStart := before.length - after.length
    let searchRegion := before.drop scanStart
    match scanLoop before after searchChunk scanStart searchRegion 0 with
    | some r => some r
    | none =>
      if 40 < after.length then fallbackLoop before after (40 - 1)
      else some after

/-- Condition under which the Go scan loop returns at absolute position `p`:
the chunk occurs at `p` and the suffix of `before` starting at `p` is a
prefix of `after`. -/
def scanCond (before after chunk : List Char) (p : Nat) : Prop :=
  chunk.isPrefixOf (before.drop p) ∧
  after.length ≥ before.length - p ∧
  after.take (before.length - p) = before.drop p

instance scanCondDec (before after chunk : List Char) (p : Nat) :
    Decidable (scanCond before after chunk p) := by
  unfold scanCond; infer_instance

/-- Reference form of the scan loop: walk absolute positions one at a time
from `p`, returning at the first position satisfying `scanCond`. The Go loop
jumps between chunk occurrences; positions without a chunk occurrence cannot
satisfy `scanCond`, so the two agree (proved below). -/
def scanRef (before after chunk : List Char) (p : Nat) : Option (List Char) :=
  if p < before.length then
    if scanCond before after chunk p then some (after.drop (before.length - p))
    else scanRef before after chunk (p + 1)
  else none
termination_by before.length - p
decreasing_by omega

/-- Specification-side predicate: a non-empty suffix of `before` of length
`n` is a prefix of `after`. -/
abbrev overlapP (before after : List Char) (n : Nat) : Prop :=
  0 < n ∧ before.drop (before.length - n) = after.take n

/-- Specification-side definition: the length of the longest suffix of
`before` that is a prefix of `after` (`0` when no non-empty overlap exists).
This follows the spec's words, to be compared with `extractNewOutput`. -/
def longestOverlap (before after : List Char) : Nat :=
  Nat.findGreatest (overlapP before after) (min before.length after.length)

/-! ## State detector (internal/cli/dashboard_test.go, `determineAgentState`) -/

/-- Idle patterns of `determineAgentState`. -/
def idlePatterns : List (List Char) :=
  [chars "$", chars ">", chars ">>> ", chars "claude>", chars "codex>",
   chars "gemini>", chars "What would you like", chars "How can I help",
   chars "Ready for", chars "Waiting for"]

/-- Go `determineAgentState(scrollback, agentType)`: split the scrollback into
lines, trim the last line, and report "idle" when any idle pattern is a
suffix of it or occurs anywhere inside it, else "working". The agent type is
unused, as in the source. -/
def determineAgentState (scrollback _agentType : List Char) : List Char :=
  let lines := splitNl scrollback
  if lines.length = 0 then chars "unknown"
  else
    let lastLine := trimSpace (lines.getD (lines.length - 1) [])
    if idlePatterns.any (fun p => goEndsWith lastLine p || containsStr lastLine p) then
      chars "idle"
    else chars "working"

/-! ## Assignment scorer (internal/coordinator/assign.go) -/

/-- Go `bv.ScoreBreakdown` (fields used by the scorer). `BlockerRatioVal` is
the Go field `BlockerRatio`. -/
structure ScoreBreakdown where
  Pagerank : ℚ
  BlockerRatioVal : ℚ
  TimeToImpact : ℚ
  deriving Inhabited, DecidableEq

/-- Go `bv.TriageRecommendation` (fields used by the scorer). `RecType` is
the Go field `Type`. -/
structure TriageRecommendation where
  ID : String
  Title : String
  Status : String
  RecType : String
  Priority : Int
  Score : ℚ
  UnblocksIDs : List String
  Reasons : List String
  Breakdown : Option ScoreBreakdown
  deriving Inhabited, DecidableEq

/-- Go `bv.TriageResponse.Triage` (inner object carrying the list). -/
structure TriageData where
  Recommendations : List TriageRecommendation
  deriving Inhabited, DecidableEq

/-- Go `bv.TriageResponse`. -/
structure TriageResponse where
  Triage : TriageData
  deriving Inhabited, DecidableEq

/-- Go `persona.Persona` (fields used by the scorer). -/
structure Persona where
  Tags : List String
  FocusPatterns : List String
  deriving Inhabited, DecidableEq

/-- Go `coordinator.AgentState` (fields read by assign.go); a `nil` profile
pointer is `none`. -/
structure AgentState where
  PaneID : String
  AgentType : String
  AgentMailName : String
  ContextUsage : ℚ
  Reservations : List String
  Profile : Option Persona
  deriving Inhabited, DecidableEq

/-- Go `coordinator.ScoreConfig`. -/
structure ScoreConfig where
  PreferCriticalPath : Bool
  PenalizeFileOverlap : Bool
  UseAgentProfiles : Bool
  BudgetAware : Bool
  ContextThreshold : ℚ
  ProfileTagBoostWeight : ℚ
  FocusPatternBoostWeight : ℚ
  deriving Inhabited, DecidableEq

/-- Go `coordinator.WorkAssignment`; `AssignedAt` models `time.Now()` as a
caller-supplied clock value. -/
structure WorkAssignment where
  BeadID : String
  BeadTitle : String
  AgentPaneID : String
  AgentMailName : String
  AgentType : String
  AssignedAt : Int
  Priority : Int
  Score : ℚ
  FilesToReserve : List String
  deriving Inhabited, DecidableEq

/-- Go `coordinator.AssignmentScoreBreakdown`. -/
structure AssignmentScoreBreakdown where
  BaseScore : ℚ
  AgentTypeBonus : ℚ
  CriticalPathBonus : ℚ
  FileOverlapPenalty : ℚ
  ContextPenalty : ℚ
  ProfileTagBonus : ℚ
  FocusPatternBonus : ℚ
  deriving Inhabited, DecidableEq

/-- Go `coordinator.ScoredAssignment`. -/
structure ScoredAssignment where
  Assignment : WorkAssignment
  Recommendation : TriageRecommendation
  Agent : AgentState
  TotalScore : ℚ
  ScoreBreakdown : AssignmentScoreBreakdown
  deriving Inhabited, DecidableEq

/-- Go `strings.Contains` on `String` values. -/
def containsS (s sub : String) : Bool :=
  containsStr s.toList sub.toList

/-- Go `strings.HasPrefix`. -/
def goStartsWith (s pre : List Char) : Bool :=
  pre.isPrefixOf s

/-- Go `strings.TrimPrefix`. -/
def goTrimPre (s pre : List Char) : List Char :=
  if pre.isPrefixOf s then s.drop pre.length else s

/-- Go `strings.Trim`: drop leading and trailing characters of `cutset`. -/
def goTrim (s cutset : List Char) : List Char :=
  ((s.dropWhile cutset.contains).reverse.dropWhile cutset.contains).reverse

/-- Go `strings.Fields`: whitespace-separated words, empties dropped. -/
def fieldsGo (s : List Char) : List (List Char) :=
  (List.splitOnP isSpaceGo s).filter (fun w => w ≠ [])

/-- Go `strings.Split(s, sep)` for a non-empty separator (the scorer only
splits on `"**"`); splitting on the empty separator yields the characters. -/
def splitOnSub (s sep : List Char) : List (List Char) :=
  if hsep : sep = [] then s.map (fun c => [c])
  else
    match h : strIndex s sep with
    | none => [s]
    | some i => s.take i :: splitOnSub (s.drop (i + sep.length)) sep
termination_by s.length
decreasing_by
  cases hs : s with
  | nil =>
    exfalso
    cases hc : sep with
    | nil => exact hsep hc
    | cons a as => rw [hs, hc] at h; simp [strIndex, List.isPrefixOf] at h
  | cons a as =>
    have hpos : 0 < sep.length := List.length_pos.mpr hsep
    simp only [hs, List.length_drop, List.length_cons]
    omega

/-- Keyword-to-tag table `taskTagKeywords` from assign.go, in source order.
(The Go original is a map with unspecified iteration order; only the set of
matched tags is consumed downstream.) -/
def taskTagKeywords : List (String × String) :=
  [("test", "testing"), ("tests", "testing"), ("testing", "testing"),
   ("unittest", "testing"), ("unit test", "testing"), ("e2e", "testing"),
   ("qa", "testing"), ("coverage", "testing"),
   ("refactor", "architecture"), ("restructure", "architecture"),
   ("redesign", "architecture"), ("architecture", "architecture"),
   ("pattern", "architecture"), ("design", "architecture"),
   ("document", "documentation"), ("documentation", "documentation"),
   ("readme", "documentation"), ("docs", "documentation"),
   ("docstring", "documentation"), ("comment", "documentation"),
   ("implement", "implementation"), ("add", "implementation"),
   ("create", "implementation"), ("build", "implementation"),
   ("feature", "implementation"), ("develop", "implementation"),
   ("review", "review"), ("audit", "review"), ("inspect", "review"),
   ("check", "review"),
   ("fix", "bugs"), ("bug", "bugs"), ("patch", "bugs"), ("error", "bugs"),
   ("crash", "bugs")]

/-- Go `ExtractTaskTags`: profile tags whose keyword occurs in the lowered
title/description; each tag reported once (the Go original collects them in
a set). -/
def ExtractTaskTags (title description : String) : List String :=
  let text := (title ++ " " ++ description).toLower
  ((taskTagKeywords.filter (fun kv => containsS text kv.1)).map Prod.snd).dedup

/-- Cutset of Go `strings.Trim(word, ",.;:()[]{}\x22\x27\x60")` in
`ExtractMentionedFiles`: comma, period, semicolon, colon, parentheses,
square brackets, curly braces, double quote, single quote, backtick. -/
def punctCutset : List Char :=
  [',', '.', ';', ':', '(', ')', '[', ']',
   Char.ofNat 123, Char.ofNat 125, Char.ofNat 34, Char.ofNat 39, Char.ofNat 96]

/-- Go `isFilePath`. -/
def isFilePath (s : List Char) : Bool :=
  if s.length < 3 then false
  else if containsStr s (chars "/") || containsStr s (chars "\\") then true
  else if [".go", ".ts", ".js", ".py", ".rs", ".md", ".yaml", ".yml",
      ".json", ".toml"].any (fun ext => goEndsWith s (chars ext)) then true
  else if containsStr s (chars "*") || containsStr s (chars "**") then true
  else if goStartsWith s (chars ".") && decide (1 < s.length) then true
  else false

/-- Go `ExtractMentionedFiles`: words of the title/description that look like
file paths, after trimming punctuation. -/
def ExtractMentionedFiles (title description : String) : List String :=
  let text := title ++ " " ++ description
  let words := fieldsGo text.toList
  ((words.map (fun w => goTrim w punctCutset)).filter isFilePath).map List.asString

/-- Character-class parser of Go `filepath.Match` (`[...]` with ranges and
backslash escapes); `none` models `ErrBadPattern`. The fuel argument is the
remaining pattern length plus one, enough for the character-by-character
consumption. -/
def parseClassItems (fuel : Nat) (l : List Char) (acc : List (Char × Char)) :
    Option (List (Char × Char) × List Char) :=
  match fuel with
  | 0 => none
  | fuel + 1 =>
    match l with
    | [] => none
    | c :: rest =>
      if c = ']' ∧ acc ≠ [] then some (acc.reverse, rest)
      else
        match (if c = Char.ofNat 92 then
            match rest with
            | [] => none
            | e :: rest1 => some (e, rest1)
          else some (c, rest) : Option (Char × List Char)) with
        | none => none
        | some (lo, rest1) =>
          match rest1 with
          | '-' :: rest2 =>
            match (match rest2 with
              | [] => none
              | h :: rest3 =>
                if h = Char.ofNat 92 then
                  match rest3 with
                  | [] => none
                  | e :: rest4 => some (e, rest4)
                else some (h, rest3) : Option (Char × List Char)) with
            | none => none
            | some (hi, rest5) => parseClassItems fuel rest5 ((lo, hi) :: acc)
          | _ => parseClassItems fuel rest1 ((lo, lo) :: acc)

/-- Go `filepath.Match` on characters: `*` matches any run of non-separator
characters, `?` any single non-separator character, `[...]` character
classes, backslash escapes; a malformed pattern never matches (the caller
`matchFocusPattern` maps `ErrBadPattern` to `false`). -/
def goMatch : List Char → List Char → Bool
  | [], name => name.isEmpty
  | '*' :: pt, name =>
    goMatch pt name ||
      (match name with
       | [] => false
       | c :: nt => (c != '/') && goMatch ('*' :: pt) nt)
  | '?' :: pt, name =>
    (match name with
     | [] => false
     | c :: nt => (c != '/') && goMatch pt nt)
  | '[' :: pt, name =>
    (match name with
     | [] => false
     | c :: nt =>
       let negBody := match pt with
         | '^' :: rest => (true, rest)
         | _ => (false, pt)
       match parseClassItems (negBody.2.length + 1) negBody.2 [] with
       | none => false
       | some (ranges, rest) =>
         let inClass := ranges.any (fun r => decide (r.1 ≤ c) && decide (c ≤ r.2))
         (if negBody.1 then !inClass else inClass) && goMatch rest nt)
  | '\\' :: pt, name =>
    (match pt with
     | [] => false
     | e :: pt1 =>
       match name with
       | [] => false
       | c :: nt => (c == e) && goMatch pt1 nt)
  | l :: pt, name =>
    (match name with
     | [] => false
     | c :: nt => (c == l) && goMatch pt nt)
termination_by pat name => (name.length, pat.length)

/-- Go `matchFocusPattern`: `**` handling, then `filepath.Match`. -/
def matchFocusPattern (pattern file : String) : Bool :=
  let p := pattern.toList
  let f := file.toList
  if containsStr p (chars "**") then
    let parts := splitOnSub p (chars "**")
    if parts.length = 2 then
      let pre := parts.getD 0 []
      let suf := goTrimPre (parts.getD 1 []) (chars "/")
      if pre ≠ [] ∧ ¬ goStartsWith f pre then false
      else if suf ≠ [] then goEndsWith f (goTrimPre suf (chars "*"))
      else true
    else goMatch p f
  else goMatch p f

/-- Go `computeProfileTagBonus`. -/
def computeProfileTagBonus (profile : Option Persona) (taskTags : List String)
    (weight : ℚ) : ℚ :=
  match profile with
  | none => 0
  | some prof =>
    if prof.Tags = [] ∨ taskTags = [] then 0
    else
      let profileTags := prof.Tags.map String.toLower
      let matched := (taskTags.filter (fun t => profileTags.contains t.toLower)).length
      if matched = 0 then 0
      else ((matched : ℚ) / (prof.Tags.length : ℚ)) * weight

/-- Go `computeFocusPatternBonus`. -/
def computeFocusPatternBonus (profile : Option Persona)
    (mentionedFiles : List String) (weight : ℚ) : ℚ :=
  match profile with
  | none => 0
  | some prof =>
    if prof.FocusPatterns = [] ∨ mentionedFiles = [] then 0
    else
      let matched := (mentionedFiles.filter
        (fun file => prof.FocusPatterns.any (fun pat => matchFocusPattern pat file))).length
      if matched = 0 then 0
      else ((matched : ℚ) / (mentionedFiles.length : ℚ)) * weight

/-- Go `estimateTaskComplexity`. -/
def estimateTaskComplexity (rec : TriageRecommendation) : ℚ :=
  let c0 : ℚ := 0.5
  let c1 := c0 +
    (if rec.RecType = "epic" then 0.3
     else if rec.RecType = "feature" then 0.2
     else if rec.RecType = "bug" then 0
     else if rec.RecType = "task" then -0.1
     else if rec.RecType = "chore" then -0.2
     else 0)
  let c2 := c1 +
    (if rec.Priority = 0 then -0.1 else if rec.Priority ≥ 3 then 0.1 else 0)
  let c3 := c2 +
    (if rec.UnblocksIDs.length ≥ 5 then 0.15
     else if rec.UnblocksIDs.length ≥ 3 then 0.1 else 0)
  if c3 < 0 then 0 else if c3 > 1 then 1 else c3

/-- Go `computeAgentTypeBonus`. -/
def computeAgentTypeBonus (agentType : String) (rec : TriageRecommendation) : ℚ :=
  let taskComplexity := estimateTaskComplexity rec
  if agentType = "cc" ∨ agentType = "claude" then
    if taskComplexity ≥ 0.7 then 0.15
    else if taskComplexity ≤ 0.3 then -0.05
    else 0
  else if agentType = "cod" ∨ agentType = "codex" then
    if taskComplexity ≤ 0.3 then 0.15
    else if taskComplexity ≥ 0.7 then -0.1
    else 0
  else if agentType = "gmi" ∨ agentType = "gemini" then
    if 0.4 ≤ taskComplexity ∧ taskComplexity ≤ 0.6 then 0.05 else 0
  else 0

/-- Go `computeCriticalPathBonus`. -/
def computeCriticalPathBonus (breakdown : ScoreBreakdown) : ℚ :=
  let b1 : ℚ := if breakdown.Pagerank > 0.05 then breakdown.Pagerank * 2 else 0
  let b2 := if breakdown.BlockerRatioVal > 0.05 then breakdown.BlockerRatioVal * 1.5 else 0
  let b3 := if breakdown.TimeToImpact > 0.04 then 0.05 else 0
  b1 + b2 + b3

/-- Lookup in a Go `map[string][]string` modelled as an association list; a
missing key yields the empty list, as a nil-map lookup does in Go. -/
def mapLookup (m : List (String × List String)) (k : String) : List String :=
  match m.find? (fun kv => kv.1 == k) with
  | none => []
  | some kv => kv.2

/-- Go `computeFileOverlapPenalty`. -/
def computeFileOverlapPenalty (agent : AgentState)
    (reservations : List (String × List String)) : ℚ :=
  let agentReservations := mapLookup reservations agent.PaneID
  let agentReservations :=
    if agentReservations.length = 0 then agent.Reservations else agentReservations
  let count := agentReservations.length
  if count = 0 then 0
  else if count ≤ 2 then 0.05
  else if count ≤ 5 then 0.1
  else 0.2

/-- Go `computeContextPenalty`; usage and threshold are percentages (0-100). -/
def computeContextPenalty (contextUsage threshold : ℚ) : ℚ :=
  if contextUsage ≤ threshold then 0
  else
    let excess := contextUsage - threshold
    excess / 100 * 0.5

/-- Go `scoreAssignment`: the full multi-factor score for one agent-task
pairing. -/
def scoreAssignment (now : Int) (agent : AgentState) (rec : TriageRecommendation)
    (config : ScoreConfig) (existingReservations : List (String × List String)) :
    ScoredAssignment :=
  let agentTypeBonus :=
    if config.UseAgentProfiles then computeAgentTypeBonus agent.AgentType rec else 0
  let profileTagBonus :=
    match agent.Profile with
    | some _ =>
      if config.UseAgentProfiles then
        let taskTags := ExtractTaskTags rec.Title ""
        let tagWeight :=
          if config.ProfileTagBoostWeight = 0 then 0.15 else config.ProfileTagBoostWeight
        computeProfileTagBonus agent.Profile taskTags tagWeight
      else 0
    | none => 0
  let focusPatternBonus :=
    match agent.Profile with
    | some _ =>
      if config.UseAgentProfiles then
        let mentionedFiles := ExtractMentionedFiles rec.Title ""
        let patternWeight :=
          if config.FocusPatternBoostWeight = 0 then 0.10 else config.FocusPatternBoostWeight
        computeFocusPatternBonus agent.Profile mentionedFiles patternWeight
      else 0
    | none => 0
  let criticalPathBonus :=
    match rec.Breakdown with
    | some bd => if config.PreferCriticalPath then computeCriticalPathBonus bd else 0
    | none => 0
  let fileOverlapPenalty :=
    if config.PenalizeFileOverlap then computeFileOverlapPenalty agent existingReservations
    else 0
  let contextPenalty :=
    if config.BudgetAware then
      let threshold := if config.ContextThreshold = 0 then 80 else config.ContextThreshold
      computeContextPenalty agent.ContextUsage threshold
    else 0
  let totalScore := rec.Score + agentTypeBonus + criticalPathBonus +
    profileTagBonus + focusPatternBonus - fileOverlapPenalty - contextPenalty
  { Assignment :=
      { BeadID := rec.ID, BeadTitle := rec.Title, AgentPaneID := agent.PaneID,
        AgentMailName := agent.AgentMailName, AgentType := agent.AgentType,
        AssignedAt := now, Priority := rec.Priority, Score := totalScore,
        FilesToReserve := [] },
    Recommendation := rec, Agent := agent, TotalScore := totalScore,
    ScoreBreakdown :=
      { BaseScore := rec.Score, AgentTypeBonus := agentTypeBonus,
        CriticalPathBonus := criticalPathBonus,
        FileOverlapPenalty := fileOverlapPenalty, ContextPenalty := contextPenalty,
        ProfileTagBonus := profileTagBonus, FocusPatternBonus := focusPatternBonus } }

/-- In-place swap `c[i], c[j] = c[j], c[i]` on a list. -/
def listSwap (l : List ScoredAssignment) (i j : Nat) : List ScoredAssignment :=
  (l.set i (l.getD j default)).set j (l.getD i default)

/-- Inner loop of Go `sortScoredAssignments` (`for j := i+1; j < len; j++`
with a conditional swap). The fuel argument stands for the loop bound; the
caller passes the list length, which the loop never exceeds. -/
def sortInner (l : List ScoredAssignment) (i j fuel : Nat) : List ScoredAssignment :=
  match fuel with
  | 0 => l
  | fuel + 1 =>
    if j < l.length then
      sortInner
        (if (l.getD j default).TotalScore > (l.getD i default).TotalScore then
          listSwap l i j
        else l) i (j + 1) fuel
    else l

/-- Outer loop of Go `sortScoredAssignments` (`for i := 0; i < len-1; i++`),
with the same fuel convention. -/
def sortOuter (l : List ScoredAssignment) (i fuel : Nat) : List ScoredAssignment :=
  match fuel with
  | 0 => l
  | fuel + 1 =>
    if i < l.length - 1 then sortOuter (sortInner l i (i + 1) l.length) (i + 1) fuel
    else l

/-- Go `sortScoredAssignments`: exchange sort by total score, highest first. -/
def sortScoredAssignments (candidates : List ScoredAssignment) : List ScoredAssignment :=
  sortOuter candidates 0 candidates.length

/-- Greedy selection loop of `ScoreAndSelectAssignments`: accept candidates
in order, skipping any whose agent pane or task id was already chosen. -/
def selectLoop : List ScoredAssignment → List ScoredAssignment → List String →
    List String → List ScoredAssignment
  | [], selected, _, _ => selected
  | candidate :: rest, selected, assignedAgents, assignedTasks =>
    if candidate.Agent.PaneID ∈ assignedAgents ∨
        candidate.Recommendation.ID ∈ assignedTasks then
      selectLoop rest selected assignedAgents assignedTasks
    else
      selectLoop rest (selected ++ [candidate])
        (candidate.Agent.PaneID :: assignedAgents)
        (candidate.Recommendation.ID :: assignedTasks)

/-- Go `ScoreAndSelectAssignments`: score all non-blocked (agent, task)
pairs, keep the strictly positive ones, sort by total score and select a
non-conflicting set greedily. -/
def ScoreAndSelectAssignments (now : Int) (idleAgents : List AgentState)
    (triage : Option TriageResponse) (config : ScoreConfig)
    (existingReservations : List (String × List String)) : List ScoredAssignment :=
  match triage with
  | none => []
  | some t =>
    if idleAgents.length = 0 ∨ t.Triage.Recommendations.length = 0 then []
    else
      let candidates := idleAgents.flatMap (fun agent =>
        t.Triage.Recommendations.filterMap (fun rec =>
          if rec.Status = "blocked" then none
          else
            let scored := scoreAssignment now agent rec config existingReservations
            if scored.TotalScore > 0 then some scored else none))
      selectLoop (sortScoredAssignments candidates) [] [] []

/-- Go `findBestMatch`: the first recommendation whose status is not
"blocked", wrapped in an assignment carrying the recommendation's own score.
(Go sets `AgentMailName` only when non-empty; the zero value is the empty
string either way.) -/
def findBestMatch (now : Int) (agent : AgentState) :
    List TriageRecommendation → Option (WorkAssignment × TriageRecommendation)
  | [] => none
  | rec :: rest =>
    if rec.Status = "blocked" then findBestMatch now agent rest
    else
      some ({ BeadID := rec.ID, BeadTitle := rec.Title, AgentPaneID := agent.PaneID,
              AgentMailName := agent.AgentMailName, AgentType := agent.AgentType,
              AssignedAt := now, Priority := rec.Priority, Score := rec.Score,
              FilesToReserve := [] }, rec)

/-- Go `removeRecommendation`. -/
def removeRecommendation (recs : List TriageRecommendation) (id : String) :
    List TriageRecommendation :=
  if recs.length = 0 then []
  else recs.filter (fun r => r.ID ≠ id)

/-- Concrete fixture: an idle claude-like agent at 30% context usage. -/
def agentFixA : AgentState :=
  { PaneID := "%1", AgentType := "cc", AgentMailName := "", ContextUsage := 30,
    Reservations := [], Profile := none }

/-- Concrete fixture: an open epic recommendation with base score 0.8. -/
def recFixOpen : TriageRecommendation :=
  { ID := "W1", Title := "aa", Status := "open", RecType := "epic", Priority := 2,
    Score := 0.8, UnblocksIDs := [], Reasons := [], Breakdown := none }

/-- Concrete fixture: a blocked recommendation with base score 0.9. -/
def recFixBlocked : TriageRecommendation :=
  { ID := "W3", Title := "bb", Status := "blocked", RecType := "task", Priority := 2,
    Score := 0.9, UnblocksIDs := [], Reasons := [], Breakdown := none }

/-- Concrete fixture: a triage response listing the blocked item first. -/
def triageFix : TriageResponse :=
  { Triage := { Recommendations := [recFixBlocked, recFixOpen] } }

/-- Concrete fixture: the default scorer configuration. -/
def configFix : ScoreConfig :=
  { PreferCriticalPath := true, PenalizeFileOverlap := true,
    UseAgentProfiles := true, BudgetAware := true, ContextThreshold := 80,
    ProfileTagBoostWeight := 0, FocusPatternBoostWeight := 0 }

/-- Concrete fixture: the assignment `findBestMatch` builds for `agentFixA`
and `recFixOpen`. -/
def asgFix : WorkAssignment :=
  { BeadID := "W1", BeadTitle := "aa", AgentPaneID := "%1", AgentMailName := "",
    AgentType := "cc", AssignedAt := 0, Priority := 2, Score := 0.8,
    FilesToReserve := [] }

/-! ## Secret scanner overlap resolution
(internal/safety/redaction/redaction.go, `deduplicateMatches`) -/

/-- Go `match` struct of the redaction scanner. `matchText` is the Go field
`match` and `endPos` the Go field `end` (both reserved words in Lean). -/
structure RMatch where
  category : String
  matchText : String
  start : Int
  endPos : Int
  priority : Int
  deriving Inhabited, DecidableEq

/-- Comparator passed to `sort.Slice` in `deduplicateMatches`: by start
position ascending, then by priority descending. -/
def matchLess (a b : RMatch) : Bool :=
  decide (a.start < b.start) ||
    (decide (a.start = b.start) && decide (b.priority < a.priority))

/-- Insertion step of the sort model. -/
def insertMatch (m : RMatch) : List RMatch → List RMatch
  | [] => [m]
  | x :: xs => if matchLess x m then x :: insertMatch m xs else m :: x :: xs

/-- Model of `sort.Slice(matches, less)` as an insertion sort by `matchLess`.
Go's `sort.Slice` is an unstable sort; any correct sort agrees with this one
whenever no two matches share both start and priority. -/
def sortMatches : List RMatch → List RMatch
  | [] => []
  | m :: rest => insertMatch m (sortMatches rest)

/-- Overlap-removal loop of `deduplicateMatches`: keep a match only when its
start is not before the end of the last kept match; `lastEnd` starts at -1. -/
def dedupLoop : List RMatch → Int → List RMatch
  | [], _ => []
  | m :: rest, lastEnd =>
    if m.start < lastEnd then dedupLoop rest lastEnd
    else m :: dedupLoop rest m.endPos

/-- Go `deduplicateMatches`: sort by (start asc, priority desc), then drop
matches that begin before the end of the last kept match. -/
def deduplicateMatches (ms : List RMatch) : List RMatch :=
  if ms.length = 0 then ms
  else dedupLoop (sortMatches ms) (-1)

/-- Specification-side order on matches: earlier start first, higher priority
first among equal starts (the non-strict closure of `matchLess`). -/
def matchOrder (a b : RMatch) : Prop :=
  a.start < b.start ∨ (a.start = b.start ∧ b.priority ≤ a.priority)

/-- Concrete fixture: a low-priority match covering positions 0-10. -/
def lowFix : RMatch :=
  { category := "LOW", matchText := "aaaaaaaaaa", start := 0, endPos := 10,
    priority := 1 }

/-- Concrete fixture: a high-priority match covering positions 2-5, overlapping
`lowFix`. -/
def highFix : RMatch :=
  { category := "HIGH", matchText := "bbb", start := 2, endPos := 5,
    priority := 99 }

/-! ## Session persistence (internal/agentmail/session.go) -/

/-- File-system operation issued by the session persistence code, with the
permission bits passed to the os call. A `rename` constructor is included so
that the absence of a write-temp-then-rename step is expressible. -/
inductive FsOp where
  | mkdirAll (path : String) (perm : Nat)
  | writeFile (path : String) (data : String) (perm : Nat)
  | rename (src dst : String)
  deriving Inhabited, DecidableEq

/-- Whether an operation is a rename. -/
def isRenameOp : FsOp → Bool
  | FsOp.rename _ _ => true
  | _ => false

/-- Directory of the session record, `filepath.Dir` of `sessionAgentPath`:
`<config-dir>/ntm/sessions/<session>`. -/
def sessionAgentDir (configDir sessionName : String) : String :=
  configDir ++ "/ntm/sessions/" ++ sessionName

/-- Go `sessionAgentPath`: `filepath.Join(configDir, "ntm", "sessions",
sessionName, "agent.json")` for a clean `os.UserConfigDir()` result, which is
passed in as `configDir`. -/
def sessionAgentPath (configDir sessionName : String) : String :=
  sessionAgentDir configDir sessionName ++ "/agent.json"

/-- Go `SaveSessionAgent` as the ordered trace of file-system operations it
issues; `data` stands for the `json.MarshalIndent` bytes of the record. The
source calls `os.MkdirAll(filepath.Dir(path), 0755)` and then
`os.WriteFile(path, data, 0644)` directly on the final path. -/
def SaveSessionAgent (configDir sessionName data : String) : List FsOp :=
  [FsOp.mkdirAll (sessionAgentDir configDir sessionName) 0o755,
   FsOp.writeFile (sessionAgentPath configDir sessionName) data 0o644]

/-! ## Redaction placeholders
(internal/safety/redaction/redaction.go, `generatePlaceholder`), with the
SHA-256 function of Go `crypto/sha256` modelled from FIPS 180-4. -/

/-- Truncation to a 32-bit word. -/
def w32 (x : Nat) : Nat := x % 4294967296

/-- Right rotation of a 32-bit word by `n`. -/
def rotr32 (n x : Nat) : Nat := x / 2 ^ n + x % 2 ^ n * 2 ^ (32 - n)

/-- SHA-256 `Ch(x,y,z)`. -/
def chF (x y z : Nat) : Nat := (x &&& y) ^^^ ((x ^^^ 4294967295) &&& z)

/-- SHA-256 `Maj(x,y,z)`. -/
def majF (x y z : Nat) : Nat := (x &&& y) ^^^ (x &&& z) ^^^ (y &&& z)

/-- SHA-256 big sigma-0. -/
def bigSigma0 (x : Nat) : Nat := rotr32 2 x ^^^ rotr32 13 x ^^^ rotr32 22 x

/-- SHA-256 big sigma-1. -/
def bigSigma1 (x : Nat) : Nat := rotr32 6 x ^^^ rotr32 11 x ^^^ rotr32 25 x

/-- SHA-256 small sigma-0. -/
def smallSigma0 (x : Nat) : Nat := rotr32 7 x ^^^ rotr32 18 x ^^^ x / 2 ^ 3

/-- SHA-256 small sigma-1. -/
def smallSigma1 (x : Nat) : Nat := rotr32 17 x ^^^ rotr32 19 x ^^^ x / 2 ^ 10

/-- SHA-256 round constants (decimal). -/
def sha256K : List Nat :=
  [1116352408, 1899447441, 3049323471, 3921009573,
   961987163, 1508970993, 2453635748, 2870763221,
   3624381080, 310598401, 607225278, 1426881987,
   1925078388, 2162078206, 2614888103, 3248222580,
   3835390401, 4022224774, 264347078, 604807628,
   770255983, 1249150122, 1555081692, 1996064986,
   2554220882, 2821834349, 2952996808, 3210313671,
   3336571891, 3584528711, 113926993, 338241895,
   666307205, 773529912, 1294757372, 1396182291,
   1695183700, 1986661051, 2177026350, 2456956037,
   2730485921, 2820302411, 3259730800, 3345764771,
   3516065817, 3600352804, 4094571909, 275423344,
   430227734, 506948616, 659060556, 883997877,
   958139571, 1322822218, 1537002063, 1747873779,
   1955562222, 2024104815, 2227730452, 2361852424,
   2428436474, 2756734187, 3204031479, 3329325298]

/-- Working state of the SHA-256 compression function. -/
structure Sha256State where
  a : Nat
  b : Nat
  c : Nat
  d : Nat
  e : Nat
  f : Nat
  g : Nat
  h : Nat
  deriving Inhabited, DecidableEq

/-- SHA-256 initial hash value. -/
def sha256H0 : Sha256State :=
  { a := 1779033703, b := 3144134277, c := 1013904242, d := 2773480762,
    e := 1359893119, f := 2600822924, g := 528734635, h := 1541459225 }

/-- The eight big-endian bytes of the 64-bit message bit length. -/
def beBytes8 (n : Nat) : List Nat :=
  [n / 2 ^ 56 % 256, n / 2 ^ 48 % 256, n / 2 ^ 40 % 256, n / 2 ^ 32 % 256,
   n / 2 ^ 24 % 256, n / 2 ^ 16 % 256, n / 2 ^ 8 % 256, n % 256]

/-- Big-endian bytes of a 32-bit word. -/
def be4Bytes (wv : Nat) : List Nat :=
  [wv / 2 ^ 24 % 256, wv / 2 ^ 16 % 256, wv / 2 ^ 8 % 256, wv % 256]

/-- SHA-256 padding: append 0x80, zeros to 56 mod 64, then the bit length. -/
def sha256Pad (msg : List Nat) : List Nat :=
  let r := (msg.length + 1) % 64
  let k := if r ≤ 56 then 56 - r else 56 + 64 - r
  msg ++ [0x80] ++ List.replicate k 0 ++ beBytes8 (8 * msg.length)

/-- Split into 64-byte blocks; the fuel argument (the list length at the
call site) bounds the recursion and is never exhausted, since every step
consumes at least one byte. -/
def chunksOf64 (fuel : Nat) (l : List Nat) : List (List Nat) :=
  match fuel with
  | 0 => []
  | fuel + 1 =>
    match l with
    | [] => []
    | _ => l.take 64 :: chunksOf64 fuel (l.drop 64)

/-- Big-endian 32-bit words of a byte block, with the same fuel convention. -/
def wordsOfBytes (fuel : Nat) (l : List Nat) : List Nat :=
  match fuel with
  | 0 => []
  | fuel + 1 =>
    match l with
    | b0 :: b1 :: b2 :: b3 :: rest =>
      (((b0 * 256 + b1) * 256 + b2) * 256 + b3) :: wordsOfBytes fuel rest
    | _ => []

/-- Message-schedule extension from 16 to 64 words. -/
def scheduleW (w : List Nat) : List Nat :=
  (List.range 48).foldl (fun acc _ =>
    acc ++ [w32 (smallSigma1 (acc.getD (acc.length - 2) 0) +
      acc.getD (acc.length - 7) 0 + smallSigma0 (acc.getD (acc.length - 15) 0) +
      acc.getD (acc.length - 16) 0)]) w

/-- One SHA-256 compression round. -/
def compressStep (st : Sha256State) (kw : Nat × Nat) : Sha256State :=
  let t1 := w32 (st.h + bigSigma1 st.e + chF st.e st.f st.g + kw.1 + kw.2)
  let t2 := w32 (bigSigma0 st.a + majF st.a st.b st.c)
  { a := w32 (t1 + t2), b := st.a, c := st.b, d := st.c, e := w32 (st.d + t1),
    f := st.e, g := st.f, h := st.g }

/-- Process one 64-byte block. -/
def processBlock (st : Sha256State) (block : List Nat) : Sha256State :=
  let w := scheduleW (wordsOfBytes block.length block)
  let t := (sha256K.zip w).foldl compressStep st
  { a := w32 (st.a + t.a), b := w32 (st.b + t.b), c := w32 (st.c + t.c),
    d := w32 (st.d + t.d), e := w32 (st.e + t.e), f := w32 (st.f + t.f),
    g := w32 (st.g + t.g), h := w32 (st.h + t.h) }

/-- SHA-256 digest (32 bytes) of a byte sequence, as in Go `crypto/sha256`. -/
def sha256 (msg : List Nat) : List Nat :=
  let padded := sha256Pad msg
  let st := (chunksOf64 padded.length padded).foldl processBlock sha256H0
  [st.a, st.b, st.c, st.d, st.e, st.f, st.g, st.h].flatMap be4Bytes

/-- Lowercase hexadecimal digit, as Go `encoding/hex` produces. -/
def hexDigit (n : Nat) : Char :=
  if n < 10 then Char.ofNat (48 + n) else Char.ofNat (87 + n)

/-- Go `hex.EncodeToString` on bytes, as characters. -/
def hexEncode (bytes : List Nat) : List Char :=
  bytes.flatMap (fun b => [hexDigit (b / 16), hexDigit (b % 16)])

/-- Bytes of an ASCII string (byte value = code point on the inputs in
scope). -/
def bytesOfChars (s : List Char) : List Nat := s.map Char.toNat

/-- Go `generatePlaceholder(cat, content)`: hash `cat ++ ":" ++ content`,
hex-encode the first four digest bytes (`hash[:4]`, eight hex characters)
and wrap them as `[REDACTED:cat:hash8]`. -/
def generatePlaceholder (cat content : String) : String :=
  let data := cat ++ ":" ++ content
  let hash := sha256 (bytesOfChars data.toList)
  let hashStr := (hexEncode (hash.take 4)).asString
  "[REDACTED:" ++ cat ++ ":" ++ hashStr ++ "]"

/-- Specification-side placeholder, following the spec's words: the first 8
hex characters of SHA-256 of `"CATEGORY:" + match`. -/
def specPlaceholder (cat content : String) : String :=
  "[REDACTED:" ++ cat ++ ":" ++
    ((hexEncode (sha256 (bytesOfChars (cat ++ ":" ++ content).toList))).take 8).asString
    ++ "]"

/-- Finding record of `ScanAndRedact` (fields used here); `MatchText` is the
Go field `Match`, `EndPos` the Go field `End`. -/
structure Finding where
  Category : String
  MatchText : String
  Redacted : String
  Start : Int
  EndPos : Int
  deriving Inhabited, DecidableEq

/-- The findings-construction loop of `ScanAndRedact`: every match becomes a
finding whose `Redacted` text is its placeholder. -/
def findingsOfMatches (ms : List RMatch) : List Finding :=
  ms.map (fun m =>
    { Category := m.category, MatchText := m.matchText,
      Redacted := generatePlaceholder m.category m.matchText,
      Start := m.start, EndPos := m.endPos })

/-! ## Theorems -/

/-- C5: for all strings `before` and `X`, `extract(before, before ++ X) = X`;
in particular `extract("foo", "foobar") = "bar"`; empty `before` returns
`after` and empty `after` returns empty. -/
theorem extract_append_cases :
    (∀ before X : List Char, extractNewOutput before (before ++ X) = some X) ∧
    extractNewOutput (chars "foo") (chars "foobar") = some (chars "bar") ∧
    (∀ after : List Char, extractNewOutput [] after = some after) ∧
    (∀ before : List Char, extractNewOutput before [] = some []) := by
  have happ : ∀ before X : List Char, extractNewOutput before (before ++ X) = some X := by
    intro before X
    by_cases hb : before = []
    · subst hb; simp [extractNewOutput]
    · by_cases haX : before ++ X = []
      · exact absurd (List.append_eq_nil.mp haX).1 hb
      · have hext : before.length ≤ (before ++ X).length ∧
            (before ++ X).take before.length = before := by
          constructor
          · simp
          · exact List.take_left before X
        rw [extractNewOutput]
        rw [if_neg hb, if_neg haX, if_pos hext]
        rw [List.drop_left]
  refine ⟨happ, ?_, ?_, ?_⟩
  · have h := happ (chars "foo") (chars "bar")
    simpa using h
  · intro after; simp [extractNewOutput]
  · intro before
    by_cases hb : before = []
    · subst hb; simp [extractNewOutput]
    · rw [extractNewOutput, if_neg hb, if_pos rfl]

/-- Helper: a successful `strIndex` lies within the string. -/
theorem strIndex_bound {s sub : List Char} {i : Nat} (h : strIndex s sub = some i) :
    i + sub.length ≤ s.length := by
  induction s generalizing i with
  | nil =>
    rw [strIndex] at h
    split at h
    · next hpre =>
      cases h
      simpa using (List.isPrefixOf_iff_prefix.mp hpre).length_le
    · exact absurd h (by simp)
  | cons a t ih =>
    rw [strIndex] at h
    split at h
    · next hpre =>
      cases h
      simpa using (List.isPrefixOf_iff_prefix.mp hpre).length_le
    · cases hm : strIndex t sub with
      | none => rw [hm] at h; exact absurd h (by simp)
      | some j =>
        rw [hm] at h
        simp only [Option.map_some'] at h
        cases h
        have := ih hm
        simp only [List.length_cons]
        omega

/-- Helper: `strIndex` finds an actual occurrence. -/
theorem strIndex_at {s sub : List Char} {i : Nat} (h : strIndex s sub = some i) :
    sub <+: s.drop i := by
  induction s generalizing i with
  | nil =>
    rw [strIndex] at h
    split at h
    · next hpre => cases h; simpa using List.isPrefixOf_iff_prefix.mp hpre
    · exact absurd h (by simp)
  | cons a t ih =>
    rw [strIndex] at h
    split at h
    · next hpre => cases h; simpa using List.isPrefixOf_iff_prefix.mp hpre
    · cases hm : strIndex t sub with
      | none => rw [hm] at h; exact absurd h (by simp)
      | some j =>
        rw [hm] at h
        simp only [Option.map_some'] at h
        cases h
        simpa using ih hm

/-- Helper: `strIndex` finds the first occurrence. -/
theorem strIndex_min {s sub : List Char} {i : Nat} (h : strIndex s sub = some i) :
    ∀ j, j < i → ¬ sub <+: s.drop j := by
  induction s generalizing i with
  | nil =>
    rw [strIndex] at h
    split at h
    · cases h; omega
    · exact absurd h (by simp)
  | cons a t ih =>
    rw [strIndex] at h
    split at h
    · cases h; omega
    · next hpre =>
      cases hm : strIndex t sub with
      | none => rw [hm] at h; exact absurd h (by simp)
      | some j =>
        rw [hm] at h
        simp only [Option.map_some'] at h
        cases h
        intro k hk
        cases k with
        | zero =>
          simp only [List.drop_zero]
          intro hcon
          exact hpre (List.isPrefixOf_iff_prefix.mpr hcon)
        | succ k' =>
          simpa using ih hm k' (by omega)

/-- Helper: a failed `strIndex` means no occurrence anywhere. -/
theorem strIndex_none {s sub : List Char} (h : strIndex s sub = none) :
    ∀ j, ¬ sub <+: s.drop j := by
  induction s with
  | nil =>
    rw [strIndex] at h
    split at h
    · exact absurd h (by simp)
    · next hpre =>
      intro j
      simp only [List.drop_nil]
      intro hcon
      exact hpre (List.isPrefixOf_iff_prefix.mpr hcon)
  | cons a t ih =>
    rw [strIndex] at h
    split at h
    · exact absurd h (by simp)
    · next hpre =>
      have hm : strIndex t sub = none := by
        cases hm : strIndex t sub with
        | none => rfl
        | some j => rw [hm] at h; exact absurd h (by simp)
      intro j
      cases j with
      | zero =>
        simp only [List.drop_zero]
        intro hcon
        exact hpre (List.isPrefixOf_iff_prefix.mpr hcon)
      | succ j' => simpa using ih hm j'

/-- Helper: `scanRef` past the end of `before` yields nothing. -/
theorem scanRef_of_le {before after chunk : List Char} {p : Nat}
    (hp : before.length ≤ p) : scanRef before after chunk p = none := by
  rw [scanRef]
  exact if_neg (by omega)

/-- Helper: `scanRef` steps over a position that does not satisfy `scanCond`. -/
theorem scanRef_skip {before after chunk : List Char} {p : Nat}
    (hnc : ¬ scanCond before after chunk p) :
    scanRef before after chunk p = scanRef before after chunk (p + 1) := by
  by_cases hp : p < before.length
  · rw [scanRef, if_pos hp, if_neg hnc]
  · rw [scanRef_of_le (by omega), scanRef_of_le (by omega)]

/-- Helper: `scanRef` steps over a whole region without `scanCond`. -/
theorem scanRef_skip_range {before after chunk : List Char} {p q : Nat}
    (hpq : p ≤ q) (hn : ∀ r, p ≤ r → r < q → ¬ scanCond before after chunk r) :
    scanRef before after chunk p = scanRef before after chunk q := by
  induction q with
  | zero =>
    have : p = 0 := by omega
    rw [this]
  | succ q' ih =>
    by_cases hq : p = q' + 1
    · rw [hq]
    · have hpq' : p ≤ q' := by omega
      rw [ih hpq' (fun r hr hr' => hn r hr (by omega))]
      exact scanRef_skip (hn q' hpq' (by omega))

/-- Helper: `scanRef` returns at the first position satisfying `scanCond`. -/
theorem scanRef_first {before after chunk : List Char} {p q : Nat}
    (hpq : p ≤ q) (hql : q < before.length)
    (hc : scanCond before after chunk q)
    (hmin : ∀ r, p ≤ r → r < q → ¬ scanCond before after chunk r) :
    scanRef before after chunk p = some (after.drop (before.length - q)) := by
  rw [scanRef_skip_range hpq hmin, scanRef, if_pos hql, if_pos hc]

/-- Helper: `scanRef` yields nothing when no position satisfies `scanCond`. -/
theorem scanRef_none {before after chunk : List Char} {p : Nat}
    (hn : ∀ r, p ≤ r → r < before.length → ¬ scanCond before after chunk r) :
    scanRef before after chunk p = none := by
  by_cases hp : p < before.length
  · rw [scanRef_skip_range (p := p) (q := before.length) (by omega) hn]
    exact scanRef_of_le le_rfl
  · exact scanRef_of_le (by omega)

/-- Helper: when the chunk does not occur in the region, no position from `p`
on satisfies `scanCond`. -/
theorem scanRef_none_of_strIndex {before after chunk : List Char} {p : Nat}
    (h : strIndex (before.drop p) chunk = none) :
    scanRef before after chunk p = none := by
  apply scanRef_none
  intro r hr _ hc
  have hocc := List.isPrefixOf_iff_prefix.mp hc.1
  have hd : before.drop r = (before.drop p).drop (r - p) := by
    rw [List.drop_drop]
    congr 1
    omega
  rw [hd] at hocc
  exact strIndex_none h (r - p) hocc

/-- Helper: the Go scan loop agrees with the position-by-position reference
scan, for any region aligned with the absolute offset bookkeeping. -/
theorem scanLoop_eq_scanRef (before after chunk : List Char) (scanStart : Nat)
    (hch : chunk ≠ []) :
    ∀ fuel o, before.length ≤ scanStart + o + fuel →
      scanLoop before after chunk scanStart (before.drop (scanStart + o)) o =
      scanRef before after chunk (scanStart + o) := by
  have hcl : 0 < chunk.length := List.length_pos.mpr hch
  intro fuel
  induction fuel with
  | zero =>
    intro o ho
    have hdrop : before.drop (scanStart + o) = [] := List.drop_eq_nil_of_le (by omega)
    have hnone : strIndex (before.drop (scanStart + o)) chunk = none := by
      rw [hdrop]
      cases hc : chunk with
      | nil => exact absurd hc hch
      | cons c cs => simp [strIndex, List.isPrefixOf]
    rw [scanRef_none_of_strIndex hnone]
    rw [scanLoop, dif_neg hch]
    split
    · rfl
    · next idx heq => rw [hnone] at heq; cases heq
  | succ fuel ih =>
    intro o ho
    cases hidx : strIndex (before.drop (scanStart + o)) chunk with
    | none =>
      rw [scanRef_none_of_strIndex hidx]
      rw [scanLoop, dif_neg hch]
      split
      · rfl
      · next idx heq => rw [hidx] at heq; cases heq
    | some idx =>
      have hocc : chunk <+: before.drop (scanStart + o + idx) := by
        have hat := strIndex_at hidx
        rw [List.drop_drop] at hat
        exact hat
      have hb := strIndex_bound hidx
      rw [List.length_drop] at hb
      have hql : scanStart + o + idx < before.length := by omega
      have hminr : ∀ r, scanStart + o ≤ r → r < scanStart + o + idx →
          ¬ scanCond before after chunk r := by
        intro r hr hr' hcon
        have hp := List.isPrefixOf_iff_prefix.mp hcon.1
        have hd : before.drop r = (before.drop (scanStart + o)).drop (r - (scanStart + o)) := by
          rw [List.drop_drop]
          congr 1
          omega
        rw [hd] at hp
        exact strIndex_min hidx (r - (scanStart + o)) (by omega) hp
      by_cases hver : after.length ≥ before.length - (scanStart + o + idx) ∧
          after.take (before.length - (scanStart + o + idx)) =
            before.drop (scanStart + o + idx)
      · have hc : scanCond before after chunk (scanStart + o + idx) :=
          ⟨List.isPrefixOf_iff_prefix.mpr hocc, hver.1, hver.2⟩
        rw [scanRef_first (by omega) hql hc hminr]
        rw [scanLoop, dif_neg hch]
        split
        · next heq => rw [hidx] at heq; cases heq
        · next idx' heq =>
          rw [hidx] at heq
          injection heq with heq'
          subst heq'
          rw [if_pos hver]
      · have hskip : scanRef before after chunk (scanStart + o) =
            scanRef before after chunk (scanStart + o + idx + 1) := by
          apply scanRef_skip_range (by omega)
          intro r hr hr'
          by_cases hrq : r = scanStart + o + idx
          · subst hrq
            intro hcon
            exact hver ⟨hcon.2.1, hcon.2.2⟩
          · exact hminr r hr (by omega)
        rw [hskip]
        rw [scanLoop, dif_neg hch]
        split
        · next heq => rw [hidx] at heq; cases heq
        · next idx' heq =>
          rw [hidx] at heq
          injection heq with heq'
          subst heq'
          rw [if_neg hver]
          have hdd : (before.drop (scanStart + o)).drop (idx + 1) =
              before.drop (scanStart + (o + idx + 1)) := by
            rw [List.drop_drop]
            congr 1
            omega
          rw [hdd]
          have := ih (o + idx + 1) (by omega)
          rw [show scanStart + (o + idx + 1) = scanStart + o + idx + 1 by omega] at this ⊢
          exact this

/-- Helper: once the fast paths are ruled out, `extractNewOutput` runs the
scan loop and falls back as in the source. -/
theorem extract_scan_branch (before after : List Char) (hb : before ≠ [])
    (ha : after ≠ [])
    (hext : ¬ (before.length ≤ after.length ∧ after.take before.length = before)) :
    extractNewOutput before after =
      match scanLoop before after (if 40 ≤ after.length then after.take 40 else after)
          (before.length - after.length)
          (before.drop (before.length - after.length)) 0 with
      | some r => some r
      | none =>
        if 40 < after.length then fallbackLoop before after (40 - 1)
        else some after := by
  rw [extractNewOutput, if_neg hb, if_neg ha, if_neg hext]

/-- Helper: a positive `Nat.findGreatest` satisfies its predicate. -/
theorem findGreatest_pos_spec {P : Nat → Prop} [DecidablePred P] {b : Nat}
    (h : 0 < Nat.findGreatest P b) : P (Nat.findGreatest P b) := by
  induction b with
  | zero => simp [Nat.findGreatest] at h
  | succ b ih =>
    rw [Nat.findGreatest_succ] at h ⊢
    split at h
    · next hp => rwa [if_pos hp]
    · next hp => rw [if_neg hp]; exact ih h

/-- Helper: lowering the search bound below the found value does not change
`Nat.findGreatest`. -/
theorem findGreatest_restrict {P : Nat → Prop} [DecidablePred P] {b k : Nat}
    (hk : k ≤ b) (hle : Nat.findGreatest P b ≤ k) :
    Nat.findGreatest P k = Nat.findGreatest P b := by
  apply le_antisymm
  · rcases Nat.eq_zero_or_pos (Nat.findGreatest P k) with hz | hpos
    · omega
    · exact Nat.le_findGreatest (le_trans (Nat.findGreatest_le k) hk)
        (findGreatest_pos_spec hpos)
  · rcases Nat.eq_zero_or_pos (Nat.findGreatest P b) with hz | hpos
    · omega
    · exact Nat.le_findGreatest hle (findGreatest_pos_spec hpos)

/-- Helper: an overlap of length at least the chunk size gives `scanCond` at
the corresponding position. -/
theorem scanCond_of_overlap {before after : List Char} {n : Nat}
    (h40 : 40 ≤ n) (hnb : n ≤ before.length) (hna : n ≤ after.length)
    (heq : before.drop (before.length - n) = after.take n) :
    scanCond before after (after.take 40) (before.length - n) := by
  have hq : before.length - (before.length - n) = n := by omega
  refine ⟨?_, ?_, ?_⟩
  · apply List.isPrefixOf_iff_prefix.mpr
    rw [heq]
    have htt : (after.take n).take 40 = after.take 40 := by
      rw [List.take_take, Nat.min_eq_left h40]
    rw [← htt]
    exact List.take_prefix 40 (after.take n)
  · rw [hq]; exact hna
  · rw [hq]; exact heq.symm

/-- Helper: `scanCond` at a position yields an overlap of length at least the
chunk size. -/
theorem overlap_of_scanCond {before after : List Char} {q : Nat}
    (hq : q < before.length) (h40a : 40 ≤ after.length)
    (hc : scanCond before after (after.take 40) q) :
    40 ≤ before.length - q ∧ before.length - q ≤ after.length ∧
      before.drop (before.length - (before.length - q)) =
        after.take (before.length - q) := by
  obtain ⟨h1, h2, h3⟩ := hc
  have hp := List.isPrefixOf_iff_prefix.mp h1
  have hl2 := hp.length_le
  rw [List.length_drop, List.length_take] at hl2
  have h40' : 40 ≤ before.length - q := by omega
  refine ⟨h40', h2, ?_⟩
  have he : before.length - (before.length - q) = q := by omega
  rw [he]
  exact h3.symm

/-- Helper: the fallback loop computes the longest short overlap (or returns
`after` when none exists), provided `before` is long enough to avoid the
negative-slice panic. -/
theorem fallbackLoop_eq (before after : List Char) :
    ∀ k, k ≤ before.length →
      fallbackLoop before after k =
        some (after.drop (Nat.findGreatest (overlapP before after) k)) := by
  intro k
  induction k with
  | zero =>
    intro _
    simp [fallbackLoop, Nat.findGreatest]
  | succ k ih =>
    intro hk
    rw [fallbackLoop]
    rw [if_neg (by omega)]
    rw [Nat.findGreatest_succ]
    by_cases hc : before.drop (before.length - (k + 1)) = after.take (k + 1)
    · rw [if_pos hc, if_pos ⟨Nat.succ_pos k, hc⟩]
    · rw [if_neg hc, if_neg (fun h => hc h.2)]
      exact ih (by omega)

/-- C1 (amended): when `after` is not an extension of `before`, the chunk was
capped (`len(after) > 40`) and `before` is long enough for the fallback not
to panic (`len(before) ≥ 39`), `extract(before, after)` returns
`after[len(S):]` where `S` is the longest suffix of `before` that is a prefix
of `after`, ties resolved in favour of the longest suffix; when no non-empty
overlap exists (`longestOverlap = 0`) it returns `after` entire. -/
theorem extract_longest_suffix (before after : List Char)
    (hext : ¬ (before.length ≤ after.length ∧ after.take before.length = before))
    (h40 : 40 < after.length) (h39 : 39 ≤ before.length) :
    extractNewOutput before after =
      some (after.drop (longestOverlap before after)) := by
  have hb : before ≠ [] := by
    intro h; rw [h] at h39; simp at h39
  have ha : after ≠ [] := by
    intro h; rw [h] at h40; simp at h40
  have hchunk : (if 40 ≤ after.length then after.take 40 else after) = after.take 40 :=
    if_pos (by omega)
  have hch : after.take 40 ≠ [] := by
    intro hcon
    have hc := congrArg List.length hcon
    rw [List.length_take] at hc
    simp only [List.length_nil] at hc
    omega
  have hM1 : min before.length after.length ≤ before.length := Nat.min_le_left _ _
  have hM2 : min before.length after.length ≤ after.length := Nat.min_le_right _ _
  have hM3 : 39 ≤ min before.length after.length := le_min (by omega) (by omega)
  have hNM : longestOverlap before after ≤ min before.length after.length :=
    Nat.findGreatest_le _
  rw [extract_scan_branch before after hb ha hext, hchunk]
  have hloop := scanLoop_eq_scanRef before after (after.take 40)
    (before.length - after.length) hch before.length 0 (by omega)
  rw [Nat.add_zero] at hloop
  rw [hloop]
  by_cases hN40 : 40 ≤ longestOverlap before after
  · -- the scan loop finds the longest overlap
    have hpos : 0 < Nat.findGreatest (overlapP before after)
        (min before.length after.length) := by
      unfold longestOverlap at hN40
      omega
    have hPN := findGreatest_pos_spec hpos
    rw [show Nat.findGreatest (overlapP before after) (min before.length after.length) =
        longestOverlap before after from rfl] at hPN
    obtain ⟨hNpos, heqN⟩ := hPN
    have hNb : longestOverlap before after ≤ before.length := by omega
    have hNa : longestOverlap before after ≤ after.length := by omega
    have hcond := scanCond_of_overlap hN40 hNb hNa heqN
    have hqlt : before.length - longestOverlap before after < before.length := by omega
    have hstart : before.length - after.length ≤
        before.length - longestOverlap before after := by omega
    have hmin : ∀ r, before.length - after.length ≤ r →
        r < before.length - longestOverlap before after →
        ¬ scanCond before after (after.take 40) r := by
      intro r hr hrq hc
      have hrlt : r < before.length := by omega
      obtain ⟨h40r, hra, heqr⟩ := overlap_of_scanCond hrlt (by omega) hc
      have hPr : overlapP before after (before.length - r) := ⟨by omega, heqr⟩
      have hrM : before.length - r ≤ min before.length after.length :=
        le_min (by omega) (by omega)
      have hle := Nat.le_findGreatest hrM hPr
      rw [show Nat.findGreatest (overlapP before after) (min before.length after.length) =
          longestOverlap before after from rfl] at hle
      omega
    rw [scanRef_first hstart hqlt hcond hmin]
    have he : before.length - (before.length - longestOverlap before after) =
        longestOverlap before after := by omega
    rw [he]
  · -- no overlap of chunk length: the scan loop fails and the fallback runs
    have hnone : scanRef before after (after.take 40)
        (before.length - after.length) = none := by
      apply scanRef_none
      intro r hr hrl hc
      obtain ⟨h40r, hra, heqr⟩ := overlap_of_scanCond hrl (by omega) hc
      have hPr : overlapP before after (before.length - r) := ⟨by omega, heqr⟩
      have hrM : before.length - r ≤ min before.length after.length :=
        le_min (by omega) (by omega)
      have hle := Nat.le_findGreatest hrM hPr
      rw [show Nat.findGreatest (overlapP before after) (min before.length after.length) =
          longestOverlap before after from rfl] at hle
      omega
    rw [hnone]
    show (if 40 < after.length then fallbackLoop before after (40 - 1) else some after) =
      some (after.drop (longestOverlap before after))
    rw [if_pos h40]
    rw [fallbackLoop_eq before after (40 - 1) (by omega)]
    congr 2
    have hres : Nat.findGreatest (overlapP before after) (40 - 1) =
        Nat.findGreatest (overlapP before after) (min before.length after.length) := by
      apply findGreatest_restrict (by omega)
      rw [show Nat.findGreatest (overlapP before after) (min before.length after.length) =
          longestOverlap before after from rfl]
      omega
    rw [hres]
    rfl

/-- C1 (counterexample): the contract fails as universally stated. With
`before = "XYAB"`, `after = "ABC"` the longest suffix of `before` that is a
prefix of `after` is `"AB"`, so the claim demands `"C"`, yet the code returns
`"ABC"` entire (the overlap is shorter than the 40-byte chunk and the chunk
was not capped, so the fallback never runs). With `before = "Z"` and `after`
of 41 bytes and no overlap, the claim demands `after` entire, yet the Go code
panics on a negative slice index in the fallback (modelled as `none`). -/
theorem extract_longest_suffix_cex :
    (extractNewOutput (chars "XYAB") (chars "ABC") = some (chars "ABC") ∧
     longestOverlap (chars "XYAB") (chars "ABC") = 2 ∧
     chars "ABC" ≠ (chars "ABC").drop 2) ∧
    extractNewOutput (chars "Z") (List.replicate 41 'B') = none := by
  constructor
  · refine ⟨?_, by decide, by decide⟩
    rw [extract_scan_branch (chars "XYAB") (chars "ABC") (by decide) (by decide)
      (by decide)]
    rw [show (if 40 ≤ (chars "ABC").length then (chars "ABC").take 40 else chars "ABC") =
      chars "ABC" from by decide]
    rw [show (chars "XYAB").length - (chars "ABC").length = 1 from by decide]
    have hloop := scanLoop_eq_scanRef (chars "XYAB") (chars "ABC") (chars "ABC")
      1 (by decide) 4 0 (by decide)
    rw [Nat.add_zero] at hloop
    rw [hloop]
    have hnone : scanRef (chars "XYAB") (chars "ABC") (chars "ABC") 1 = none := by
      apply scanRef_none
      intro r h1 h2
      rw [show (chars "XYAB").length = 4 from by decide] at h2
      interval_cases r <;> decide
    rw [hnone]
    show (if 40 < (chars "ABC").length then
        fallbackLoop (chars "XYAB") (chars "ABC") (40 - 1)
      else some (chars "ABC")) = some (chars "ABC")
    rw [if_neg (by decide)]
  · rw [extract_scan_branch (chars "Z") (List.replicate 41 'B') (by decide) (by decide)
      (by decide)]
    rw [show (if 40 ≤ (List.replicate 41 'B').length then (List.replicate 41 'B').take 40
      else List.replicate 41 'B') = List.replicate 40 'B' from by decide]
    rw [show (chars "Z").length - (List.replicate 41 'B').length = 0 from by decide]
    have hloop := scanLoop_eq_scanRef (chars "Z") (List.replicate 41 'B')
      (List.replicate 40 'B') 0 (by decide) 1 0 (by decide)
    rw [Nat.add_zero] at hloop
    rw [hloop]
    have hnone : scanRef (chars "Z") (List.replicate 41 'B') (List.replicate 40 'B') 0 =
        none := by
      apply scanRef_none
      intro r h1 h2
      rw [show (chars "Z").length = 1 from by decide] at h2
      interval_cases r
      decide
    rw [hnone]
    show (if 40 < (List.replicate 41 'B').length then
        fallbackLoop (chars "Z") (List.replicate 41 'B') (40 - 1)
      else some (List.replicate 41 'B')) = none
    rw [if_pos (by decide)]
    decide

/-- C1 (witness): the amended contract at a concrete scrolled snapshot with a
5-character overlap, `before` of length 39 and `after` of length 45. -/
theorem extract_longest_suffix_witness :
    extractNewOutput (List.replicate 34 'x' ++ chars "HELLO")
        (chars "HELLO" ++ List.replicate 40 'y') =
      some (List.replicate 40 'y') := by
  have h := extract_longest_suffix (List.replicate 34 'x' ++ chars "HELLO")
    (chars "HELLO" ++ List.replicate 40 'y') (by decide) (by decide) (by decide)
  rw [h]
  rw [show longestOverlap (List.replicate 34 'x' ++ chars "HELLO")
      (chars "HELLO" ++ List.replicate 40 'y') = 5 from by decide]
  decide

/-- C2 (code verdict): the detector classifies a genuine shell prompt tail
"user@host:~$ " as idle, but it also classifies "cost is $5 for this" as
idle, because the pattern loop tests `strings.Contains` in addition to
`strings.HasSuffix`, so the `$` rule matches inline currency text. The spec
requires "working" for the second input. -/
theorem determineAgentState_dollar :
    determineAgentState (chars "user@host:~$ ") (chars "cc") = chars "idle" ∧
    determineAgentState (chars "cost is $5 for this") (chars "cc") = chars "idle" :=
  ⟨by decide, by decide⟩

/-- Helper: every member of `listSwap l i j` with in-range indices is a
member of `l`. -/
theorem listSwap_mem {l : List ScoredAssignment} {i j : Nat} {x : ScoredAssignment}
    (hi : i < l.length) (hj : j < l.length) (hx : x ∈ listSwap l i j) : x ∈ l := by
  unfold listSwap at hx
  rcases List.mem_or_eq_of_mem_set hx with hx | hx
  · rcases List.mem_or_eq_of_mem_set hx with hx | hx
    · exact hx
    · subst hx
      rw [List.getD_eq_getElem l default hj]
      exact List.getElem_mem hj
  · subst hx
    rw [List.getD_eq_getElem l default hi]
    exact List.getElem_mem hi

/-- Helper: `listSwap` preserves length. -/
theorem listSwap_length (l : List ScoredAssignment) (i j : Nat) :
    (listSwap l i j).length = l.length := by
  simp [listSwap]

/-- Helper: the inner sort loop only permutes; members come from the input. -/
theorem sortInner_mem :
    ∀ (fuel : Nat) (l : List ScoredAssignment) (i j : Nat) (x : ScoredAssignment),
      i < l.length → x ∈ sortInner l i j fuel → x ∈ l := by
  intro fuel
  induction fuel with
  | zero =>
    intro l i j x _ hx
    simpa [sortInner] using hx
  | succ fuel ih =>
    intro l i j x hi hx
    rw [sortInner] at hx
    split at hx
    · next hj =>
      by_cases hc : (l.getD j default).TotalScore > (l.getD i default).TotalScore
      · rw [if_pos hc] at hx
        have hx2 := ih (listSwap l i j) i (j + 1) x
          (by rw [listSwap_length]; exact hi) hx
        exact listSwap_mem hi hj hx2
      · rw [if_neg hc] at hx
        exact ih l i (j + 1) x hi hx
    · exact hx

/-- Helper: the outer sort loop only permutes; members come from the input. -/
theorem sortOuter_mem :
    ∀ (fuel : Nat) (l : List ScoredAssignment) (i : Nat) (x : ScoredAssignment),
      x ∈ sortOuter l i fuel → x ∈ l := by
  intro fuel
  induction fuel with
  | zero =>
    intro l i x hx
    simpa [sortOuter] using hx
  | succ fuel ih =>
    intro l i x hx
    rw [sortOuter] at hx
    split at hx
    · next hlt =>
      have hx2 := ih _ _ _ hx
      exact sortInner_mem l.length l i (i + 1) x (by omega) hx2
    · exact hx

/-- Helper: members of the greedy selection come from the accumulator or the
candidate list. -/
theorem selectLoop_mem :
    ∀ (cs selected : List ScoredAssignment) (aa ta : List String)
      (x : ScoredAssignment),
      x ∈ selectLoop cs selected aa ta → x ∈ selected ∨ x ∈ cs := by
  intro cs
  induction cs with
  | nil =>
    intro selected aa ta x hx
    left
    simpa [selectLoop] using hx
  | cons c rest ih =>
    intro selected aa ta x hx
    rw [selectLoop] at hx
    split at hx
    · rcases ih _ _ _ _ hx with h | h
      · left; exact h
      · right; exact List.mem_cons_of_mem _ h
    · rcases ih _ _ _ _ hx with h | h
      · rcases List.mem_append.mp h with h | h
        · left; exact h
        · right
          rw [List.mem_singleton] at h
          subst h
          exact List.mem_cons_self _ _
      · right; exact List.mem_cons_of_mem _ h

/-- Helper: the greedy selection keeps at most one assignment per agent pane
and per work item. -/
theorem selectLoop_pairwise :
    ∀ (cs selected : List ScoredAssignment) (aa ta : List String),
      (∀ s ∈ selected, s.Agent.PaneID ∈ aa) →
      (∀ s ∈ selected, s.Recommendation.ID ∈ ta) →
      List.Pairwise (fun a b => a.Agent.PaneID ≠ b.Agent.PaneID ∧
        a.Recommendation.ID ≠ b.Recommendation.ID) selected →
      List.Pairwise (fun a b => a.Agent.PaneID ≠ b.Agent.PaneID ∧
        a.Recommendation.ID ≠ b.Recommendation.ID) (selectLoop cs selected aa ta) := by
  intro cs
  induction cs with
  | nil =>
    intro selected aa ta _ _ hp
    simpa [selectLoop] using hp
  | cons c rest ih =>
    intro selected aa ta h1 h2 hp
    rw [selectLoop]
    split
    · exact ih selected aa ta h1 h2 hp
    · next hnot =>
      push_neg at hnot
      apply ih
      · intro s hs
        rcases List.mem_append.mp hs with hs | hs
        · exact List.mem_cons_of_mem _ (h1 s hs)
        · rw [List.mem_singleton] at hs
          subst hs
          exact List.mem_cons_self _ _
      · intro s hs
        rcases List.mem_append.mp hs with hs | hs
        · exact List.mem_cons_of_mem _ (h2 s hs)
        · rw [List.mem_singleton] at hs
          subst hs
          exact List.mem_cons_self _ _
      · rw [List.pairwise_append]
        refine ⟨hp, List.pairwise_singleton _ _, ?_⟩
        intro a ha b hb
        rw [List.mem_singleton] at hb
        subst hb
        constructor
        · intro hcon
          apply hnot.1
          rw [← hcon]
          exact h1 a ha
        · intro hcon
          apply hnot.2
          rw [← hcon]
          exact h2 a ha

/-- Helper: every candidate produced by the scorer's double loop has a
strictly positive total score and a non-blocked recommendation. -/
theorem mem_scorer_candidates {now : Int} {idleAgents : List AgentState}
    {t : TriageResponse} {config : ScoreConfig}
    {res : List (String × List String)} {x : ScoredAssignment}
    (hx : x ∈ idleAgents.flatMap (fun agent =>
      t.Triage.Recommendations.filterMap (fun rec =>
        if rec.Status = "blocked" then none
        else
          let scored := scoreAssignment now agent rec config res
          if scored.TotalScore > 0 then some scored else none))) :
    0 < x.TotalScore ∧ x.Recommendation.Status ≠ "blocked" := by
  rw [List.mem_flatMap] at hx
  obtain ⟨agent, _, hx⟩ := hx
  rw [List.mem_filterMap] at hx
  obtain ⟨rec, _, hfx⟩ := hx
  by_cases hst : rec.Status = "blocked"
  · rw [if_pos hst] at hfx
    cases hfx
  · rw [if_neg hst] at hfx
    simp only [] at hfx
    by_cases hts : (scoreAssignment now agent rec config res).TotalScore > 0
    · rw [if_pos hts] at hfx
      rw [Option.some.injEq] at hfx
      subst hfx
      exact ⟨hts, hst⟩
    · rw [if_neg hts] at hfx
      cases hfx

/-- Helper: every selected assignment has a positive total and a non-blocked
recommendation. -/
theorem mem_ScoreAndSelect {now : Int} {idleAgents : List AgentState}
    {triage : Option TriageResponse} {config : ScoreConfig}
    {res : List (String × List String)} {x : ScoredAssignment}
    (hx : x ∈ ScoreAndSelectAssignments now idleAgents triage config res) :
    0 < x.TotalScore ∧ x.Recommendation.Status ≠ "blocked" := by
  cases triage with
  | none => simp [ScoreAndSelectAssignments] at hx
  | some t =>
    simp only [ScoreAndSelectAssignments] at hx
    split at hx
    · simp at hx
    · rcases selectLoop_mem _ _ _ _ _ hx with h | h
      · simp at h
      · rw [sortScoredAssignments] at h
        have h2 := sortOuter_mem _ _ _ _ h
        exact mem_scorer_candidates h2

/-- Helper: the selected assignments are pairwise distinct in agent pane id
and in work-item id. -/
theorem pairwise_ScoreAndSelect {now : Int} {idleAgents : List AgentState}
    {triage : Option TriageResponse} {config : ScoreConfig}
    {res : List (String × List String)} :
    List.Pairwise (fun a b => a.Agent.PaneID ≠ b.Agent.PaneID ∧
      a.Recommendation.ID ≠ b.Recommendation.ID)
      (ScoreAndSelectAssignments now idleAgents triage config res) := by
  cases triage with
  | none => exact List.Pairwise.nil
  | some t =>
    simp only [ScoreAndSelectAssignments]
    split
    · exact List.Pairwise.nil
    · exact selectLoop_pairwise _ [] [] []
        (by intro s hs; simp at hs) (by intro s hs; simp at hs) List.Pairwise.nil

/-- C3: for every list of idle agents, triage response, configuration and
reservation map, `ScoreAndSelectAssignments` returns at most one assignment
per agent pane-id, at most one per work-item id, and only assignments with
total score strictly greater than zero. -/
theorem scorer_selection_invariants :
    ∀ (now : Int) (idleAgents : List AgentState) (triage : Option TriageResponse)
      (config : ScoreConfig) (existingReservations : List (String × List String)),
      (∀ s ∈ ScoreAndSelectAssignments now idleAgents triage config
          existingReservations, 0 < s.TotalScore) ∧
      List.Pairwise (fun a b => a.Agent.PaneID ≠ b.Agent.PaneID)
        (ScoreAndSelectAssignments now idleAgents triage config
          existingReservations) ∧
      List.Pairwise (fun a b => a.Recommendation.ID ≠ b.Recommendation.ID)
        (ScoreAndSelectAssignments now idleAgents triage config
          existingReservations) := by
  intro now idleAgents triage config res
  refine ⟨fun s hs => (mem_ScoreAndSelect hs).1, ?_, ?_⟩
  · exact pairwise_ScoreAndSelect.imp (fun h => h.1)
  · exact pairwise_ScoreAndSelect.imp (fun h => h.2)

/-- C4: a blocked recommendation is never selected: neither by the
multi-factor scorer nor by `findBestMatch`. -/
theorem blocked_never_selected :
    ∀ (now : Int) (idleAgents : List AgentState) (triage : Option TriageResponse)
      (config : ScoreConfig) (existingReservations : List (String × List String)),
      (∀ s ∈ ScoreAndSelectAssignments now idleAgents triage config
          existingReservations, s.Recommendation.Status ≠ "blocked") ∧
      ∀ (agent : AgentState) (recs : List TriageRecommendation)
        (a : WorkAssignment) (rec : TriageRecommendation),
        findBestMatch now agent recs = some (a, rec) → rec.Status ≠ "blocked" := by
  intro now idleAgents triage config res
  constructor
  · exact fun s hs => (mem_ScoreAndSelect hs).2
  · intro agent recs
    induction recs with
    | nil => intro a rec h; simp [findBestMatch] at h
    | cons r rest ih =>
      intro a rec h
      rw [findBestMatch] at h
      split at h
      · exact ih a rec h
      · next hst =>
        rw [Option.some.injEq] at h
        injection h with h1 h2
        subst h2
        exact hst

/-- C10: in the `AssignWork` auto-assignment path, `findBestMatch` pairs an
agent with the first recommendation in list order whose status is not
"blocked"; the returned assignment carries that recommendation's own base
score (`Score := rec.Score`), with no multi-factor scoring involved. -/
theorem findBestMatch_first_nonblocked :
    ∀ (now : Int) (agent : AgentState) (recs : List TriageRecommendation),
      findBestMatch now agent recs =
        (recs.find? (fun r => !(r.Status == "blocked"))).map (fun rec =>
          ({ BeadID := rec.ID, BeadTitle := rec.Title, AgentPaneID := agent.PaneID,
             AgentMailName := agent.AgentMailName, AgentType := agent.AgentType,
             AssignedAt := now, Priority := rec.Priority, Score := rec.Score,
             FilesToReserve := [] }, rec)) := by
  intro now agent recs
  induction recs with
  | nil => rfl
  | cons r rest ih =>
    rw [findBestMatch]
    by_cases hst : r.Status = "blocked"
    · rw [if_pos hst, List.find?_cons_of_neg _ (by simp [hst])]
      exact ih
    · rw [if_neg hst, List.find?_cons_of_pos _ (by simp [hst])]
      rfl

/-- C6: the context penalty is zero iff usage is at or below the threshold;
strictly above it equals `((usage − threshold)/100)·0.5`, which is strictly
positive. -/
theorem computeContextPenalty_spec :
    ∀ usage threshold : ℚ,
      (computeContextPenalty usage threshold = 0 ↔ usage ≤ threshold) ∧
      (threshold < usage →
        computeContextPenalty usage threshold = (usage - threshold) / 100 * 0.5 ∧
        0 < computeContextPenalty usage threshold) := by
  intro usage threshold
  constructor
  · constructor
    · intro h
      by_contra hcon
      push_neg at hcon
      rw [computeContextPenalty, if_neg (not_le.mpr hcon)] at h
      have hpos : 0 < usage - threshold := sub_pos.mpr hcon
      have : 0 < (usage - threshold) / 100 * 0.5 := by positivity
      simp only [] at h
      linarith
    · intro h
      rw [computeContextPenalty, if_pos h]
  · intro h
    rw [computeContextPenalty, if_neg (not_le.mpr h)]
    have hpos : 0 < usage - threshold := sub_pos.mpr h
    constructor
    · rfl
    · have : 0 < (usage - threshold) / 100 * 0.5 := by positivity
      simpa using this

/-- C6 (witness): at usage 90 over threshold 80 the penalty is 1/20 and is
positive. -/
theorem computeContextPenalty_spec_witness :
    computeContextPenalty 90 80 = 1 / 20 ∧ 0 < computeContextPenalty 90 80 := by
  have h := (computeContextPenalty_spec 90 80).2 (by norm_num)
  constructor
  · rw [h.1]; norm_num
  · exact h.2

/-- C3 (witness): at a concrete input with one idle agent and one open
recommendation, the selected assignment has a strictly positive total. -/
theorem scorer_selection_invariants_witness :
    0 < ((ScoreAndSelectAssignments 0 [agentFixA] (some triageFix) configFix
      []).getD 0 default).TotalScore := by
  have hsel : ScoreAndSelectAssignments 0 [agentFixA] (some triageFix) configFix [] =
      [scoreAssignment 0 agentFixA recFixOpen configFix []] := by
    norm_num [ScoreAndSelectAssignments, triageFix, recFixOpen, recFixBlocked, agentFixA,
      configFix, scoreAssignment, computeAgentTypeBonus, estimateTaskComplexity,
      computeContextPenalty, computeFileOverlapPenalty, computeCriticalPathBonus,
      mapLookup, sortScoredAssignments, sortOuter, sortInner, selectLoop, listSwap,
      List.flatMap_cons, List.flatMap_nil, List.filterMap_cons, List.filterMap_nil]
  exact (scorer_selection_invariants 0 [agentFixA] (some triageFix) configFix []).1 _
    (by rw [hsel]; simp)

/-- C4 (witness): at the same concrete input, the selected assignment's
recommendation is not blocked, and `findBestMatch` skips the blocked item. -/
theorem blocked_never_selected_witness :
    ((ScoreAndSelectAssignments 0 [agentFixA] (some triageFix) configFix
      []).getD 0 default).Recommendation.Status ≠ "blocked" ∧
    recFixOpen.Status ≠ "blocked" := by
  have hsel : ScoreAndSelectAssignments 0 [agentFixA] (some triageFix) configFix [] =
      [scoreAssignment 0 agentFixA recFixOpen configFix []] := by
    norm_num [ScoreAndSelectAssignments, triageFix, recFixOpen, recFixBlocked, agentFixA,
      configFix, scoreAssignment, computeAgentTypeBonus, estimateTaskComplexity,
      computeContextPenalty, computeFileOverlapPenalty, computeCriticalPathBonus,
      mapLookup, sortScoredAssignments, sortOuter, sortInner, selectLoop, listSwap,
      List.flatMap_cons, List.flatMap_nil, List.filterMap_cons, List.filterMap_nil]
  constructor
  · exact (blocked_never_selected 0 [agentFixA] (some triageFix) configFix []).1 _
      (by rw [hsel]; simp)
  · exact (blocked_never_selected 0 [agentFixA] (some triageFix) configFix []).2
      agentFixA [recFixBlocked, recFixOpen] asgFix recFixOpen
      (by
        norm_num [findBestMatch, recFixBlocked, recFixOpen, agentFixA, asgFix]
        exact fun h => absurd h (by decide))

/-- Helper: `matchLess` implies the non-strict order. -/
theorem matchOrder_of_matchLess {a b : RMatch} (h : matchLess a b = true) :
    matchOrder a b := by
  unfold matchLess at h
  simp only [Bool.or_eq_true, Bool.and_eq_true, decide_eq_true_eq] at h
  rcases h with h | ⟨h1, h2⟩
  · exact Or.inl h
  · exact Or.inr ⟨h1, le_of_lt h2⟩

/-- Helper: a failed `matchLess` implies the reverse non-strict order. -/
theorem matchOrder_of_not_matchLess {a b : RMatch} (h : ¬ matchLess a b = true) :
    matchOrder b a := by
  unfold matchLess at h
  simp only [Bool.or_eq_true, Bool.and_eq_true, decide_eq_true_eq, not_or,
    not_and, not_lt] at h
  rcases lt_or_eq_of_le h.1 with hlt | heq
  · exact Or.inl hlt
  · exact Or.inr ⟨heq, h.2 heq.symm⟩

/-- Helper: `matchOrder` is transitive. -/
theorem matchOrder_trans {a b c : RMatch} (h1 : matchOrder a b)
    (h2 : matchOrder b c) : matchOrder a c := by
  rcases h1 with h1 | ⟨h1, h1p⟩ <;> rcases h2 with h2 | ⟨h2, h2p⟩
  · exact Or.inl (lt_trans h1 h2)
  · exact Or.inl (h2 ▸ h1)
  · exact Or.inl (h1 ▸ h2)
  · exact Or.inr ⟨h1.trans h2, le_trans h2p h1p⟩

/-- Helper: members of an insertion come from the inserted element or the
list. -/
theorem insertMatch_mem {m x : RMatch} :
    ∀ {l : List RMatch}, x ∈ insertMatch m l → x = m ∨ x ∈ l := by
  intro l
  induction l with
  | nil => intro hx; left; simpa [insertMatch] using hx
  | cons y ys ih =>
    intro hx
    rw [insertMatch] at hx
    split at hx
    · rcases List.mem_cons.mp hx with hx | hx
      · right; exact hx ▸ List.mem_cons_self _ _
      · rcases ih hx with hx | hx
        · left; exact hx
        · right; exact List.mem_cons_of_mem _ hx
    · rcases List.mem_cons.mp hx with hx | hx
      · left; exact hx
      · right; exact hx

/-- Helper: insertion preserves sortedness by `matchOrder`. -/
theorem insertMatch_pairwise {m : RMatch} :
    ∀ {l : List RMatch}, List.Pairwise matchOrder l →
      List.Pairwise matchOrder (insertMatch m l) := by
  intro l
  induction l with
  | nil => intro _; simp [insertMatch]
  | cons x xs ih =>
    intro hl
    rw [List.pairwise_cons] at hl
    rw [insertMatch]
    split
    · next hless =>
      rw [List.pairwise_cons]
      constructor
      · intro y hy
        rcases insertMatch_mem hy with hy | hy
        · exact hy ▸ matchOrder_of_matchLess hless
        · exact hl.1 y hy
      · exact ih hl.2
    · next hnless =>
      rw [List.pairwise_cons]
      constructor
      · intro y hy
        rcases List.mem_cons.mp hy with hy | hy
        · exact hy ▸ matchOrder_of_not_matchLess hnless
        · exact matchOrder_trans (matchOrder_of_not_matchLess hnless) (hl.1 y hy)
      · rw [List.pairwise_cons]
        exact hl

/-- Helper: members of the sorted list come from the input. -/
theorem sortMatches_mem {x : RMatch} :
    ∀ {l : List RMatch}, x ∈ sortMatches l → x ∈ l := by
  intro l
  induction l with
  | nil => intro hx; simpa [sortMatches] using hx
  | cons m rest ih =>
    intro hx
    rw [sortMatches] at hx
    rcases insertMatch_mem hx with hx | hx
    · exact hx ▸ List.mem_cons_self _ _
    · exact List.mem_cons_of_mem _ (ih hx)

/-- Helper: the sort model yields a list sorted by (start asc, priority
desc). -/
theorem sortMatches_pairwise :
    ∀ l : List RMatch, List.Pairwise matchOrder (sortMatches l) := by
  intro l
  induction l with
  | nil => simp [sortMatches]
  | cons m rest ih => exact insertMatch_pairwise ih

/-- Helper: members of the overlap-removal loop come from the input. -/
theorem dedupLoop_mem {x : RMatch} :
    ∀ (l : List RMatch) (lastEnd : Int), x ∈ dedupLoop l lastEnd → x ∈ l := by
  intro l
  induction l with
  | nil => intro lastEnd hx; simpa [dedupLoop] using hx
  | cons m rest ih =>
    intro lastEnd hx
    rw [dedupLoop] at hx
    split at hx
    · exact List.mem_cons_of_mem _ (ih _ hx)
    · rcases List.mem_cons.mp hx with hx | hx
      · exact hx ▸ List.mem_cons_self _ _
      · exact List.mem_cons_of_mem _ (ih _ hx)

/-- Helper: the kept matches are chained without overlap, and the first kept
match starts no earlier than the running `lastEnd`. -/
theorem dedupLoop_chain :
    ∀ (l : List RMatch) (lastEnd : Int),
      List.Chain' (fun a b => a.endPos ≤ b.start) (dedupLoop l lastEnd) ∧
      (∀ h t, dedupLoop l lastEnd = h :: t → lastEnd ≤ h.start) := by
  intro l
  induction l with
  | nil =>
    intro lastEnd
    constructor
    · simp [dedupLoop]
    · intro h t hcon
      simp [dedupLoop] at hcon
  | cons m rest ih =>
    intro lastEnd
    rw [dedupLoop]
    split
    · exact ih lastEnd
    · next hge =>
      push_neg at hge
      constructor
      · rw [List.chain'_cons']
        constructor
        · intro y hy
          cases hr : dedupLoop rest m.endPos with
          | nil => rw [hr] at hy; simp at hy
          | cons h t =>
            rw [hr] at hy
            simp only [List.head?_cons, Option.mem_def, Option.some.injEq] at hy
            subst hy
            exact (ih m.endPos).2 h t hr
        · exact (ih m.endPos).1
      · intro h t hcon
        rw [List.cons.injEq] at hcon
        rw [← hcon.1]
        exact hge

/-- C7 (counterexample): two overlapping matches where the later-starting one
has far higher priority; the code keeps the earlier, lower-priority match and
drops the high-priority one, contradicting priority-first resolution. -/
theorem deduplicateMatches_cex :
    deduplicateMatches [lowFix, highFix] = [lowFix] ∧
    lowFix.priority < highFix.priority ∧
    lowFix.start < highFix.start ∧
    highFix.start < lowFix.endPos ∧
    highFix ∉ deduplicateMatches [lowFix, highFix] := by
  refine ⟨by rfl, by decide, by decide, by decide, ?_⟩
  rw [show deduplicateMatches [lowFix, highFix] = [lowFix] from rfl]
  decide

/-- C7 (amended): overlapping matches are resolved by earlier start position
first; category priority decides only between matches with equal start (the
sort is by start ascending, then priority descending, and the greedy pass
keeps a match iff it starts at or after the end of the last kept match).
Consequently the output comes from the input and is a chain of
non-overlapping spans in start order. -/
theorem deduplicateMatches_spec :
    ∀ ms : List RMatch,
      (∀ m ∈ deduplicateMatches ms, m ∈ ms) ∧
      List.Chain' (fun a b => a.endPos ≤ b.start) (deduplicateMatches ms) ∧
      List.Pairwise matchOrder (sortMatches ms) := by
  intro ms
  refine ⟨?_, ?_, sortMatches_pairwise ms⟩
  · intro m hm
    unfold deduplicateMatches at hm
    split at hm
    · exact hm
    · exact sortMatches_mem (dedupLoop_mem _ _ hm)
  · unfold deduplicateMatches
    split
    · next hlen =>
      rw [List.length_eq_zero] at hlen
      rw [hlen]
      simp
    · exact (dedupLoop_chain (sortMatches ms) (-1)).1

/-- C7 (witness): the amended statement applied to the concrete overlapping
pair; the kept match is a member of the input. -/
theorem deduplicateMatches_spec_witness : lowFix ∈ [lowFix, highFix] :=
  (deduplicateMatches_spec [lowFix, highFix]).1 lowFix
    (by rw [show deduplicateMatches [lowFix, highFix] = [lowFix] from rfl]; decide)

/-- C9 (counterexample): the claim asserts an atomic write-temp-then-rename,
but at a concrete input the operation trace of `SaveSessionAgent` is exactly
one `MkdirAll` (0755) followed by one direct `WriteFile` (0644) on the final
path, with no rename anywhere. -/
theorem SaveSessionAgent_cex :
    SaveSessionAgent "/home/u/.config" "dev" "x" =
      [FsOp.mkdirAll "/home/u/.config/ntm/sessions/dev" 493,
       FsOp.writeFile "/home/u/.config/ntm/sessions/dev/agent.json" "x" 420] ∧
    (SaveSessionAgent "/home/u/.config" "dev" "x").any isRenameOp = false :=
  ⟨rfl, rfl⟩

/-- C9 (amended): `SaveSessionAgent` persists the record at
`<config-dir>/ntm/sessions/<session>/agent.json`, creating the directory
with permissions 0755 and writing the file directly (a single `WriteFile`,
not write-temp-then-rename) with permissions 0644. -/
theorem SaveSessionAgent_spec :
    ∀ configDir sessionName data : String,
      SaveSessionAgent configDir sessionName data =
        [FsOp.mkdirAll (configDir ++ "/ntm/sessions/" ++ sessionName) 493,
         FsOp.writeFile (configDir ++ "/ntm/sessions/" ++ sessionName ++ "/agent.json")
           data 420] := by
  intro configDir sessionName data
  rfl

set_option maxRecDepth 8000 in
/-- Helper: the model of SHA-256 matches the FIPS 180-4 test vector for
"abc" (and therefore Go `crypto/sha256` on it). -/
theorem sha256_abc_vector :
    hexEncode (sha256 (bytesOfChars (chars "abc"))) =
      chars "ba7816bf8f01cfea414140de5dae2223b00361a396177a9cb410ff61f20015ad" := by
  decide

/-- Helper: hex encoding of a prefix is the prefix of the hex encoding. -/
theorem hexEncode_take : ∀ (l : List Nat) (n : Nat),
    hexEncode (l.take n) = (hexEncode l).take (2 * n) := by
  intro l
  induction l with
  | nil => intro n; simp [hexEncode]
  | cons b bs ih =>
    intro n
    cases n with
    | zero => simp [hexEncode]
    | succ n =>
      rw [List.take_succ_cons]
      rw [show 2 * (n + 1) = 2 * n + 1 + 1 from by ring]
      simp only [hexEncode, List.flatMap_cons, List.cons_append, List.nil_append,
        List.take_succ_cons]
      rw [show (List.take n bs).flatMap (fun b => [hexDigit (b / 16), hexDigit (b % 16)]) =
        hexEncode (List.take n bs) from rfl]
      rw [show bs.flatMap (fun b => [hexDigit (b / 16), hexDigit (b % 16)]) =
        hexEncode bs from rfl]
      rw [ih n]

/-- Helper: hex encoding doubles the length. -/
theorem hexEncode_length : ∀ l : List Nat, (hexEncode l).length = 2 * l.length := by
  intro l
  induction l with
  | nil => rfl
  | cons b bs ih =>
    simp only [hexEncode, List.flatMap_cons] at ih ⊢
    simp [ih]
    omega

/-- Helper: a SHA-256 digest has 32 bytes. -/
theorem sha256_length (msg : List Nat) : (sha256 msg).length = 32 := rfl

/-- Helper: every byte of a SHA-256 digest is below 256. -/
theorem sha256_bytes_lt (msg : List Nat) : ∀ b ∈ sha256 msg, b < 256 := by
  intro b hb
  rw [show sha256 msg =
    (let padded := sha256Pad msg
     let st := (chunksOf64 padded.length padded).foldl processBlock sha256H0
     [st.a, st.b, st.c, st.d, st.e, st.f, st.g, st.h].flatMap be4Bytes) from rfl] at hb
  simp only [List.mem_flatMap] at hb
  obtain ⟨wv, _, hbw⟩ := hb
  simp only [be4Bytes, List.mem_cons, List.not_mem_nil, or_false] at hbw
  rcases hbw with h | h | h | h <;> (subst h; exact Nat.mod_lt _ (by norm_num))

/-- Helper: a hex digit of a value below 16 is a lowercase hex character. -/
theorem hexDigit_mem_hexChars : ∀ n, n < 16 →
    hexDigit n ∈ chars "0123456789abcdef" := by
  intro n hn
  interval_cases n <;> decide

/-- Helper: every character of the 8-character hash is lowercase hex. -/
theorem hexEncode_mem_hexChars (l : List Nat) (hl : ∀ b ∈ l, b < 256) :
    ∀ c ∈ hexEncode l, c ∈ chars "0123456789abcdef" := by
  intro c hc
  simp only [hexEncode, List.mem_flatMap] at hc
  obtain ⟨b, hb, hcb⟩ := hc
  simp only [List.mem_cons, List.not_mem_nil, or_false] at hcb
  have hblt := hl b hb
  rcases hcb with h | h <;> subst h
  · exact hexDigit_mem_hexChars _ (by omega)
  · exact hexDigit_mem_hexChars _ (Nat.mod_lt _ (by norm_num))

/-- C8: in redact mode every match is replaced by a placeholder of the form
`[REDACTED:CATEGORY:hash8]`; the code's `hex(hash[:4])` equals the spec's
first 8 hex characters of `SHA-256("CATEGORY:" + match)`; the hash part has
exactly 8 lowercase-hex characters; and the placeholder is deterministic in
the (category, content) pair. -/
theorem generatePlaceholder_spec :
    (∀ cat content : String,
      generatePlaceholder cat content = specPlaceholder cat content) ∧
    (∀ cat content : String,
      generatePlaceholder cat content =
        "[REDACTED:" ++ cat ++ ":" ++
          (hexEncode ((sha256 (bytesOfChars
            (cat ++ ":" ++ content).toList)).take 4)).asString ++ "]" ∧
      (hexEncode ((sha256 (bytesOfChars
        (cat ++ ":" ++ content).toList)).take 4)).length = 8 ∧
      ∀ c ∈ hexEncode ((sha256 (bytesOfChars (cat ++ ":" ++ content).toList)).take 4),
        c ∈ chars "0123456789abcdef") ∧
    (∀ ms : List RMatch, (findingsOfMatches ms).map Finding.Redacted =
      ms.map (fun m => generatePlaceholder m.category m.matchText)) ∧
    (∀ cat1 content1 cat2 content2 : String, cat1 = cat2 → content1 = content2 →
      generatePlaceholder cat1 content1 = generatePlaceholder cat2 content2) := by
  refine ⟨?_, ?_, ?_, ?_⟩
  · intro cat content
    show ("[REDACTED:" ++ cat ++ ":" ++
      (hexEncode ((sha256 (bytesOfChars
        (cat ++ ":" ++ content).toList)).take 4)).asString ++ "]") =
      specPlaceholder cat content
    unfold specPlaceholder
    rw [hexEncode_take]
  · intro cat content
    refine ⟨rfl, ?_, ?_⟩
    · rw [hexEncode_length, List.length_take, sha256_length]
      norm_num
    · apply hexEncode_mem_hexChars
      intro b hb
      exact sha256_bytes_lt _ b (List.mem_of_mem_take hb)
  · intro ms
    simp [findingsOfMatches]
  · intro cat1 content1 cat2 content2 h1 h2
    rw [h1, h2]

/-- C8 (witness): the refinement and the determinism congruence at a concrete
category and content. -/
theorem generatePlaceholder_spec_witness :
    generatePlaceholder "OPENAI_KEY" "sk-test123" =
      specPlaceholder "OPENAI_KEY" "sk-test123" ∧
    generatePlaceholder "OPENAI_KEY" "sk-test123" =
      generatePlaceholder "OPENAI_KEY" "sk-test123" :=
  ⟨generatePlaceholder_spec.1 "OPENAI_KEY" "sk-test123",
   generatePlaceholder_spec.2.2.2 "OPENAI_KEY" "sk-test123" "OPENAI_KEY" "sk-test123"
     rfl rfl⟩
